import Mathlib

/-!
# WifiLoadBalancing — verification of the assignment/rebalancing engine

Shallow embedding of the WiFi load-balancing simulator
(`src/WifiLoadBalancing/src`): the cost/capacity model
(`algorithms/cost_function.py`), the stable priority queue
(`algorithms/priority_queue.py`), the greedy redistributor
(`algorithms/greedy_redistribution.py`), the flow-graph construction and
MCMF assignment extraction (`algorithms/graph_model.py`,
`algorithms/mcmf.py`) and the relevant parts of the simulator tick loop
(`simulation/simulator.py`).

Python dicts `user`/`ap` are promoted to records with the field set the
engine actually uses.  Python floats are modelled as `ℝ`, Python ints as
`ℤ`/`ℕ`, identifiers as `String`, and `None` as `Option.none`.  In-place
mutation of a dict held in a list becomes a by-identifier functional
update of the list; the theorems that depend on this identification carry
`Nodup` hypotheses on the identifier lists, matching the data files where
identifiers are unique.
-/

namespace WifiLB

open Real

/-- Truthiness of an optional string, as Python evaluates `if aid:` —
`None` and the empty string are falsy. -/
def truthy : Option String → Bool
  | none => false
  | some s => !(s == "")

/-- Python `int(x)` on a float: truncation toward zero. -/
noncomputable def pyInt (x : ℝ) : ℤ := if 0 ≤ x then ⌊x⌋ else ⌈x⌉

/-- A user record (`self.clients` entries in `WifiSimulator`). -/
structure User where
  id : String
  floor : Int
  x : ℝ
  y : ℝ
  vx : ℝ := 0
  vy : ℝ := 0
  assigned_ap : Option String
  connected_ap : Option String := none
  nearest_ap : Option String := none
  RSSI : Int := -95
  airtime_usage : Int := 1

/-- An access-point record (`self.aps` entries in `WifiSimulator`). -/
structure AP where
  id : String
  floor : Int
  x : ℝ
  y : ℝ
  load : ℝ := 0
  connected_clients : List String := []
  airtime_capacity : ℝ := 100
  user_count : Nat := 0
  coverage_radius : ℝ := 200
  max_users : Nat := 30
  band : Option String := none
  interference_score : ℝ := 0

/-- `cost_function.dynamic_capacity`:
`C_eff = base * (1 + 0.25 * log(1 + users))`, floored at `base`
(`return max(base, boosted)`). -/
noncomputable def dynamic_capacity (ap : AP) : ℝ :=
  max ap.airtime_capacity
    (ap.airtime_capacity * (1 + (0.25 : ℝ) * Real.log (1 + (ap.user_count : ℝ))))

/-! ## Priority queue (`algorithms/priority_queue.py`)

`UserPriorityQueue` pushes entries `(priority, counter, user)` onto a
`heapq` min-heap; the counter increases by one per push, so entries are
totally ordered by the lexicographic order on `(priority, counter)` and
the user payloads are never compared.  `pop` returns the entry with the
smallest `(priority, counter)`.  We model the heap as the list of
entries and `pop` as extraction of the lexicographic minimum. -/

/-- A heap entry `(priority, counter, user)`. -/
abbrev PqEntry := ℤ × ℕ × User

/-- `heapq` comparison on entries: lexicographic on `(priority, counter)`
(counters are distinct in every queue the engine builds, so the user
payload is never reached). -/
def entryLe (a b : PqEntry) : Bool :=
  decide (a.1 < b.1) || (decide (a.1 = b.1) && decide (a.2.1 ≤ b.2.1))

/-- `UserPriorityQueue.pop`: remove and return the minimum entry
(`heapq.heappop`), or `none` when the heap is empty. -/
def pqPop : List PqEntry → Option (PqEntry × List PqEntry)
  | [] => none
  | e :: es =>
    match pqPop es with
    | none => some (e, [])
    | some (m, rest) =>
      if entryLe e m then some (e, m :: rest) else some (m, e :: rest)

lemma pqPop_eq_none {pq : List PqEntry} : pqPop pq = none ↔ pq = [] := by
  cases pq with
  | nil => simp [pqPop]
  | cons e es =>
    simp only [pqPop]
    cases h : pqPop es with
    | none => simp
    | some p =>
      obtain ⟨m, rest⟩ := p
      by_cases hle : entryLe e m <;> simp [hle]

/-- Popping returns a permutation decomposition of the heap. -/
lemma pqPop_perm {pq : List PqEntry} {e : PqEntry} {rest : List PqEntry}
    (h : pqPop pq = some (e, rest)) : pq.Perm (e :: rest) := by
  induction pq generalizing e rest with
  | nil => simp [pqPop] at h
  | cons a as ih =>
    simp only [pqPop] at h
    cases hrec : pqPop as with
    | none =>
      rw [hrec] at h
      obtain rfl : as = [] := pqPop_eq_none.mp hrec
      simp only [Option.some.injEq, Prod.mk.injEq] at h
      obtain ⟨rfl, rfl⟩ := h
      exact List.Perm.refl _
    | some p =>
      obtain ⟨m, rest'⟩ := p
      rw [hrec] at h
      dsimp only at h
      have hperm : as.Perm (m :: rest') := ih hrec
      by_cases hle : entryLe a m
      · rw [if_pos hle] at h
        simp only [Option.some.injEq, Prod.mk.injEq] at h
        obtain ⟨rfl, rfl⟩ := h
        exact hperm.cons a
      · rw [if_neg hle] at h
        simp only [Option.some.injEq, Prod.mk.injEq] at h
        obtain ⟨rfl, rfl⟩ := h
        exact (hperm.cons a).trans (List.Perm.swap m a rest')

/-- Popping strictly shrinks the heap. -/
lemma pqPop_length {pq : List PqEntry} {e : PqEntry} {rest : List PqEntry}
    (h : pqPop pq = some (e, rest)) : rest.length < pq.length := by
  have := (pqPop_perm h).length_eq
  simp at this
  omega

/-! ## Greedy redistributor (`algorithms/greedy_redistribution.py`) -/

/-- `math.dist` between two points. -/
noncomputable def dist2 (x₁ y₁ x₂ y₂ : ℝ) : ℝ :=
  Real.sqrt ((x₁ - x₂) ^ 2 + (y₁ - y₂) ^ 2)

/-- `GreedyRedistributor.build_priority_queue(ap)`: push every user whose
`assigned_ap` equals the AP's id, with priority `abs(user.RSSI)`; the
counter argument is the queue's push counter (`itertools.count`), bumped
once per push. -/
def build_priority_queue (apId : String) : ℕ → List User → List PqEntry
  | _, [] => []
  | n, u :: us =>
    if u.assigned_ap == some apId then
      (|u.RSSI|, n, u) :: build_priority_queue apId (n + 1) us
    else build_priority_queue apId n us

/-- One candidate step of `GreedyRedistributor.find_alternative_ap`'s scan
over `self.aps`, with the guards in source order: same floor, not the
current AP, spare dynamic capacity (`load >= cap` skips), within the
candidate's coverage radius (`dist > coverage` skips), positive distance,
then keep the strongest estimated RSSI (`-30 - 20*log10(dist)`). -/
noncomputable def findAltStep (user : User) (best : Option AP × ℝ) (ap : AP) :
    Option AP × ℝ :=
  if ap.floor ≠ user.floor then best
  else if some ap.id == user.assigned_ap then best
  else if dynamic_capacity ap ≤ ap.load then best
  else
    let d := dist2 user.x user.y ap.x ap.y
    if ap.coverage_radius < d then best
    else if d ≤ 0 then best
    else
      let rssi := -30 - 20 * Real.logb 10 d
      if best.2 < rssi then (some ap, rssi) else best

/-- `GreedyRedistributor.find_alternative_ap`: scan `self.aps` with
`best_ap = None`, `best_rssi = -200`. -/
noncomputable def find_alternative_ap (aps : List AP) (user : User) : Option AP :=
  (aps.foldl (findAltStep user) (none, -200)).1

/-- Credit one user to the first AP whose id matches
(`for ap in self.aps: if ap["id"] == aid: ... break`). -/
def creditUser (aid : String) (u : User) : List AP → List AP
  | [] => []
  | ap :: rest =>
    if ap.id = aid then
      { ap with load := ap.load + (u.airtime_usage : ℝ),
                connected_clients := ap.connected_clients ++ [u.id] } :: rest
    else ap :: creditUser aid u rest

/-- Step 1 of `GreedyRedistributor.redistribute`: zero every AP's load and
`connected_clients`, then re-credit each user whose `assigned_ap` is
truthy (`if aid:` skips `None` and the empty string). -/
def bookkeepAps (aps : List AP) (users : List User) : List AP :=
  users.foldl
    (fun acc u =>
      match u.assigned_ap with
      | none => acc
      | some aid => if aid = "" then acc else creditUser aid u acc)
    (aps.map fun ap => { ap with load := 0, connected_clients := [] })

/-- `GreedyRedistributor.get_overloaded_aps`, tracked by id:
APs with `load > dynamic_capacity(ap)`.  (The Python method returns the
live dict references; ids identify them uniquely in the data.) -/
noncomputable def get_overloaded_ids (aps : List AP) : List String :=
  (aps.filter fun ap => decide (dynamic_capacity ap < ap.load)).map AP.id

/-- The current load of the AP dict with the given id (in Python the loop
holds a live reference; ids are unique in the data). -/
noncomputable def apLoad (aps : List AP) (aid : String) : ℝ :=
  ((aps.find? fun ap => ap.id == aid).map AP.load).getD 0

/-- `dynamic_capacity` of the AP dict with the given id. -/
noncomputable def apCap (aps : List AP) (aid : String) : ℝ :=
  ((aps.find? fun ap => ap.id == aid).map dynamic_capacity).getD 0

/-- The mutation block of `redistribute`'s move: reassign the user, shift
the user's airtime between the two APs' loads, remove the user's id from
the source AP's `connected_clients` (first occurrence, if present) and
append it to the target's. -/
def moveUser (users : List User) (aps : List AP) (u : User) (fromId toId : String) :
    List User × List AP :=
  ( users.map fun w =>
      if w.id = u.id then { w with assigned_ap := some toId, connected_ap := some toId }
      else w,
    aps.map fun ap =>
      if ap.id = fromId then
        { ap with load := ap.load - (u.airtime_usage : ℝ),
                  connected_clients := ap.connected_clients.erase u.id }
      else if ap.id = toId then
        { ap with load := ap.load + (u.airtime_usage : ℝ),
                  connected_clients := ap.connected_clients ++ [u.id] }
      else ap )

/-- One-AP loop body of `redistribute`, with an explicit iteration bound:
every iteration of `while len(pq) > 0 and ap["load"] > cap` pops one
entry, so the initial queue length bounds the loop exactly (running out
of fuel coincides with `pqPop` returning `none`). -/
noncomputable def processApGo (apId : String) (cap : ℝ) :
    ℕ → List PqEntry → List User → List AP → List User × List AP
  | 0, _, users, aps => (users, aps)
  | fuel + 1, pq, users, aps =>
    if cap < apLoad aps apId then
      match pqPop pq with
      | none => (users, aps)
      | some (e, rest) =>
        match find_alternative_ap aps e.2.2 with
        | none => (users, aps)
        | some alt =>
          let st := moveUser users aps e.2.2 apId alt.id
          processApGo apId cap fuel rest st.1 st.2
    else (users, aps)

/-- The `while len(pq) > 0 and ap["load"] > cap` loop of `redistribute`
for one overloaded AP: pop the minimum-priority user, look for an
alternative AP, move the user if one exists, otherwise `break`. -/
noncomputable def processAp (apId : String) (cap : ℝ) (pq : List PqEntry)
    (users : List User) (aps : List AP) : List User × List AP :=
  processApGo apId cap pq.length pq users aps

/-- `GreedyRedistributor.redistribute`: bookkeeping pass, overload
detection with dynamic capacity, then per overloaded AP a fresh priority
queue (capacity fixed before the loop) processed by `processAp`. -/
noncomputable def redistribute (users : List User) (aps : List AP) :
    List User × List AP :=
  let aps₁ := bookkeepAps aps users
  (get_overloaded_ids aps₁).foldl
    (fun st aid =>
      processAp aid (apCap st.2 aid) (build_priority_queue aid 0 st.1) st.1 st.2)
    (users, aps₁)

/-! ## Flow graph and MCMF assignment extraction
(`algorithms/graph_model.py`, `algorithms/mcmf.py`)

`GraphModel.build_graph` adds `S → user` edges, `user → AP` edges for
same-floor pairs only, and `AP → T` edges.  The claims under study
concern which user→AP pairs are materialized, so the edge list carries
the id pair; the edge weight (`compute_cost`) plays no role in them.
The `networkx.max_flow_min_cost` call is a third-party pure function of
the graph; its result (`flow_dict`) enters the model as a parameter
`flow : String → Option (String → Option ℤ)` (row lookup per node, value
lookup per successor), and the extraction loop of `MCMFEngine.run`
(steps 4–5) is embedded faithfully. -/

/-- The user→AP edges materialized by `GraphModel.build_graph`
(step 2: for each user, one edge per AP on the same floor). -/
def build_graph_user_ap_edges (users : List User) (aps : List AP) :
    List (String × String) :=
  users.flatMap fun u =>
    (aps.filter fun ap => ap.floor == u.floor).map fun ap => (u.id, ap.id)

/-- The inner scan of `MCMFEngine.run` step 4 for one user: walk
`self.aps`, skip APs on a different floor (the "hard safety" guard), and
return the first AP id whose flow entry is present and ≥ 1. -/
def findAssign (row : String → Option ℤ) (ufloor : Int) : List AP → Option String
  | [] => none
  | ap :: rest =>
    if ap.floor ≠ ufloor then findAssign row ufloor rest
    else
      match row ap.id with
      | none => findAssign row ufloor rest
      | some v => if 1 ≤ v then some ap.id else findAssign row ufloor rest

/-- Step 4 of `MCMFEngine.run` for one user: `None` when the user's node
is absent from `flow_dict`, otherwise the first same-floor AP that
received a unit of flow. -/
def extractAssigned (flow : String → Option (String → Option ℤ)) (aps : List AP)
    (u : User) : Option String :=
  match flow u.id with
  | none => none
  | some row => findAssign row u.floor aps

/-- Python `dict` assignment `d[k] = v`: overwrite in place if the key is
present, else append. -/
def pyDictInsert (k : String) (v : Option String) (d : List (String × Option String)) :
    List (String × Option String) :=
  if d.any fun p => p.1 == k then d.map fun p => if p.1 == k then (k, v) else p
  else d ++ [(k, v)]

/-- Python `dict` built by successive insertion of the listed pairs. -/
def pyDictOf (ps : List (String × Option String)) : List (String × Option String) :=
  ps.foldl (fun d p => pyDictInsert p.1 p.2 d) []

/-- Python `d.get(k)` / `d[k]` lookup. -/
def dlookup (d : List (String × Option String)) (k : String) : Option (Option String) :=
  (d.find? fun p => p.1 == k).map Prod.snd

/-- Step 5 of `MCMFEngine.run`: ensure every user has an entry, adding
`None` for any user id not already a key. -/
def ensureAllUsers (users : List User) (d : List (String × Option String)) :
    List (String × Option String) :=
  users.foldl
    (fun acc u => if acc.any fun p => p.1 == u.id then acc else acc ++ [(u.id, none)])
    d

/-- Steps 4–5 of `MCMFEngine.run`: the returned `assignments` dict, as a
function of the solver's `flow_dict`. -/
def mcmfAssignments (flow : String → Option (String → Option ℤ)) (users : List User)
    (aps : List AP) : List (String × Option String) :=
  ensureAllUsers users
    (pyDictOf (users.map fun u => (u.id, extractAssigned flow aps u)))

/-! ## Simulator (`simulation/simulator.py`) -/

/-- `self.band_coverage[self.current_band]` (the simulator only ever sets
the three listed bands; any other key would raise in Python). -/
def bandCoverage (b : String) : ℝ :=
  if b = "2.4" then 800 else if b = "5" then 320 else if b = "6" then 120 else 0

/-- `self.band_pathloss.get(band, 22)`. -/
def bandPathloss (b : String) : ℝ :=
  if b = "2.4" then 20 else if b = "5" then 22 else if b = "6" then 24 else 22

/-- The clamp `max(-95, min(-40, rssi))` applied in `update_rssi`. -/
noncomputable def clampRssi (r : ℝ) : ℝ := max (-95) (min (-40) r)

/-- The clamped estimated RSSI `update_rssi` computes for one candidate
AP: path-loss exponent from the AP's band (defaulting to the current
band), `rssi = -30 - loss * log10(max(dist, 1e-3))`, clamped. -/
noncomputable def candRssi (band : String) (ux uy : ℝ) (ap : AP) : ℝ :=
  clampRssi (-30 - bandPathloss (ap.band.getD band) *
    Real.logb 10 (max (dist2 ux uy ap.x ap.y) (1 / 1000)))

/-- The best-AP scan of `update_rssi` over the same-floor APs:
skip APs outside the current band's coverage, keep the strongest clamped
RSSI (strict improvement over `best_rssi`, initially `-95`). -/
noncomputable def bestApStep (band : String) (ux uy : ℝ) (best : Option String × ℝ)
    (ap : AP) : Option String × ℝ :=
  if bandCoverage band < dist2 ux uy ap.x ap.y then best
  else
    let r := candRssi band ux uy ap
    if best.2 < r then (some ap.id, r) else best

/-- The `(best_ap, best_rssi)` pair `update_rssi` ends the scan with. -/
noncomputable def bestApScan (band : String) (ux uy : ℝ) (floorAps : List AP) :
    Option String × ℝ :=
  floorAps.foldl (bestApStep band ux uy) (none, -95)

/-- `WifiSimulator.update_rssi` for one user: if the user's floor has no
APs, or no in-coverage AP beats the `-95` starting value, disconnect
(`nearest_ap`/`connected_ap`/`assigned_ap := None`, `RSSI := -95`);
otherwise assign all three fields to the winner and store `int(best_rssi)`. -/
noncomputable def update_rssi_user (band : String) (aps : List AP) (u : User) : User :=
  let floorAps := aps.filter fun ap => ap.floor == u.floor
  if floorAps.isEmpty then
    { u with nearest_ap := none, connected_ap := none, assigned_ap := none, RSSI := -95 }
  else
    match bestApScan band u.x u.y floorAps with
    | (none, _) =>
      { u with nearest_ap := none, connected_ap := none, assigned_ap := none, RSSI := -95 }
    | (some aid, r) =>
      { u with nearest_ap := some aid, assigned_ap := some aid, connected_ap := some aid,
               RSSI := pyInt r }

/-- `WifiSimulator.update_rssi` over the whole client list. -/
noncomputable def update_rssi (band : String) (aps : List AP) (users : List User) :
    List User :=
  users.map (update_rssi_user band aps)

/-- Bump the user count of the first AP whose id matches
(`update_ap_load`'s inner loop with `break`). -/
def bumpUserCount (aid : String) : List AP → List AP
  | [] => []
  | ap :: rest =>
    if ap.id = aid then { ap with user_count := ap.user_count + 1 } :: rest
    else ap :: bumpUserCount aid rest

/-- `WifiSimulator.update_ap_load`: reset every AP's `user_count`, then
count each user whose `assigned_ap` is truthy toward the first matching
AP. -/
def update_ap_load (aps : List AP) (users : List User) : List AP :=
  users.foldl
    (fun acc u =>
      match u.assigned_ap with
      | none => acc
      | some aid => if aid = "" then acc else bumpUserCount aid acc)
    (aps.map fun ap => { ap with user_count := 0 })

/-- The visible-user filter of `WifiSimulator.get_state`:
`u.get("assigned_ap") is not None or u.get("nearest_ap") is not None`. -/
def visibleUsers (clients : List User) : List User :=
  clients.filter fun u => u.assigned_ap.isSome || u.nearest_ap.isSome

/-- The ids of the client entries exported by `get_state` (each
`visible_users` element becomes one sanitized output record with the same
id). -/
def get_state_client_ids (clients : List User) : List String :=
  (visibleUsers clients).map User.id

/-- The "SMOOTH LOAD UPDATE" section of `WifiSimulator.apply_mcmf`:
reset connected lists, set every user's `assigned_ap`/`connected_ap` from
the assignments dict (`assignments.get(uid)`), accumulate instantaneous
loads from users with a truthy assignment, then for each AP
`load := max(0, min(prev*0.82 + instant*0.40, 100))` and rebuild
`connected_clients` from `user["assigned_ap"] == ap_id`. -/
noncomputable def smoothMcmf (asg : List (String × Option String)) (users : List User)
    (aps : List AP) : List User × List AP :=
  let users₂ := users.map fun u =>
    let aid := (dlookup asg u.id).join
    { u with assigned_ap := aid, connected_ap := aid }
  let aps₂ := aps.map fun ap =>
    let instant :=
      ((users₂.filter fun u => truthy u.assigned_ap && (u.assigned_ap == some ap.id)).map
        fun u => (u.airtime_usage : ℝ)).sum
    { ap with
        load := max 0 (min (ap.load * 0.82 + instant * 0.40) 100),
        connected_clients :=
          (users₂.filter fun u => u.assigned_ap == some ap.id).map User.id }
  (users₂, aps₂)

/-- `WifiSimulator.apply_mcmf`, with the `networkx` solve modelled as the
parameter `runFlow` (`.ok` = the assignments `MCMFEngine.run` returns,
`.error` = the exception it raises).  Returns
`(self.assignments, self.clients, self.aps)` after the call; `prevAsg` is
the value of `self.assignments` on entry (the early greedy-fallback
branch returns without touching it). -/
noncomputable def apply_mcmf
    (runFlow : List User → List AP → Except String (List (String × Option String)))
    (band : String) (prevAsg : List (String × Option String))
    (users : List User) (aps : List AP) :
    List (String × Option String) × List User × List AP :=
  let users₁ := update_rssi band aps users
  let aps₁ := update_ap_load aps users₁
  if aps₁.any fun ap => ap.max_users < ap.user_count then
    let st := redistribute users₁ aps₁
    (prevAsg, st.1, st.2)
  else
    match runFlow users₁ aps₁ with
    | .ok asg =>
      let st := smoothMcmf asg users₁ aps₁
      (asg, st.1, st.2)
    | .error _ =>
      let st := redistribute users₁ aps₁
      let asg := pyDictOf (st.1.map fun u => (u.id, u.nearest_ap))
      let st' := smoothMcmf asg st.1 st.2
      (asg, st'.1, st'.2)

/-- `WifiSimulator.apply_greedy`.  Only users whose `nearest_ap` is truthy
are "in-band"; with none of them the loads only decay
(`load = max(0, load*0.82)`, no upper clamp) and connected lists clear.
Otherwise `GreedyRedistributor(self.aps, active_users).redistribute()`
runs (Python mutates the shared user dicts; the merge-back by id mirrors
that), `connected_ap` is refreshed for assigned active users, and the
smoothing loop sets `load := max(0, min(prev*0.82 + instant*0.40, 100))`
and rebuilds each AP's list from
`(u.get("assigned_ap") or u.get("nearest_ap")) == ap_id`. -/
noncomputable def apply_greedy (users : List User) (aps : List AP) :
    List User × List AP :=
  let active := users.filter fun u => truthy u.nearest_ap
  if active.isEmpty then
    (users,
      aps.map fun ap =>
        { ap with load := max 0 (ap.load * 0.82), connected_clients := [] })
  else
    let st := redistribute active aps
    let act₂ := st.1.map fun u =>
      if truthy u.assigned_ap then { u with connected_ap := u.assigned_ap } else u
    let users₂ := users.map fun u =>
      match act₂.find? fun w => w.id == u.id with
      | some w => w
      | none => u
    let aps₂ := st.2.map fun ap =>
      let instant :=
        ((act₂.filter fun u => truthy u.assigned_ap && (u.assigned_ap == some ap.id)).map
          fun u => (u.airtime_usage : ℝ)).sum
      { ap with
          load := max 0 (min (ap.load * 0.82 + instant * 0.40) 100),
          connected_clients :=
            (act₂.filter fun u =>
              (if truthy u.assigned_ap then u.assigned_ap else u.nearest_ap) ==
                some ap.id).map User.id }
    (users₂, aps₂)

/-- The `try/except` wrapper of `WifiSimulator.step`: any exception the
tick body raises is printed and swallowed, so `step` itself returns
normally either way. -/
def stepCatch (body : Except String Unit) : Except String Unit :=
  match body with
  | .error _ => .ok ()
  | .ok _ => .ok ()

/-! ## Specification-level notions used by the claims -/

/-- The users currently assigned to the AP id `aid`. -/
def clientsFor (users : List User) (aid : String) : List User :=
  users.filter fun u => u.assigned_ap == some aid

/-- Total airtime demand of a user list. -/
def sumAir (l : List User) : ℝ := (l.map fun u => (u.airtime_usage : ℝ)).sum

/-- Claim C4's invariant: each AP's `connected_clients` holds exactly
(as a multiset — the claim speaks of the set) the ids of the users whose
`assigned_ap` is that AP, and its load is their total airtime. -/
def LoadInv (users : List User) (aps : List AP) : Prop :=
  ∀ ap ∈ aps,
    (ap.connected_clients : Multiset String) =
      (((clientsFor users ap.id).map User.id : List String) : Multiset String) ∧
    ap.load = sumAir (clientsFor users ap.id)

/-- Claim C1's invariant: no user is assigned to an AP on another floor. -/
def FloorSafe (users : List User) (aps : List AP) : Prop :=
  ∀ u ∈ users, ∀ ap ∈ aps, u.assigned_ap = some ap.id → ap.floor = u.floor

/-- A user with its assignment fields blanked (everything `redistribute`
may change on a user). -/
def eraseAssign (u : User) : User :=
  { u with assigned_ap := none, connected_ap := none }

/-- An AP with its load/connected-list blanked (everything `redistribute`
may change on an AP). -/
def eraseApLoad (ap : AP) : AP := { ap with load := 0, connected_clients := [] }

/-- What the bookkeeping pass turns one AP into. -/
def bookkept (users : List User) (ap : AP) : AP :=
  { ap with load := sumAir (clientsFor users ap.id),
            connected_clients := (clientsFor users ap.id).map User.id }

end WifiLB

namespace WifiLB

/-- C6: for every AP, `dynamic_capacity` is at least the AP's base
capacity (`airtime_capacity`), and for a fixed base capacity (and the
fixed α = 0.25) it is monotonically non-decreasing in the active user
count `user_count`. -/
theorem dynamic_capacity_ge_base_and_mono (ap : AP) (n₁ n₂ : ℕ) (h : n₁ ≤ n₂) :
    ap.airtime_capacity ≤ dynamic_capacity ap ∧
    dynamic_capacity { ap with user_count := n₁ } ≤
      dynamic_capacity { ap with user_count := n₂ } := by
  constructor
  · exact le_max_left _ _
  · unfold dynamic_capacity
    rcases le_or_lt 0 ap.airtime_capacity with hb | hb
    · apply max_le_max le_rfl
      apply mul_le_mul_of_nonneg_left _ hb
      have h1 : (0 : ℝ) < 1 + (n₁ : ℝ) := by positivity
      have h2 : (0 : ℝ) < 1 + (n₂ : ℝ) := by positivity
      have hle : (1 : ℝ) + (n₁ : ℝ) ≤ 1 + (n₂ : ℝ) := by
        have : (n₁ : ℝ) ≤ (n₂ : ℝ) := by exact_mod_cast h
        linarith
      have hlog := (Real.log_le_log_iff h1 h2).mpr hle
      nlinarith
    · have hmax : ∀ n : ℕ,
          ap.airtime_capacity * (1 + (0.25 : ℝ) * Real.log (1 + (n : ℝ))) ≤
            ap.airtime_capacity := by
        intro n
        have hlog : (0 : ℝ) ≤ Real.log (1 + (n : ℝ)) := by
          apply Real.log_nonneg
          have : (0 : ℝ) ≤ (n : ℝ) := Nat.cast_nonneg n
          linarith
        nlinarith
      rw [max_eq_left (hmax n₁), max_eq_left (hmax n₂)]

/-- C3 (code bug, evaluated at the failing input): two users are on
`AP_1`, `u1` with RSSI −90 (the weakest signal) and `u2` with RSSI −50
(the strongest).  `build_priority_queue` keys the min-heap by
`abs(RSSI)`, so the first `pop` returns `u2`, the *strongest* user —
contradicting the spec and the code's own comments ("Build Priority
Queue of weakest users", "Reassign weakest users first"), which demand
the weakest (most negative RSSI) user first. -/
theorem greedy_pops_strongest_first_at_failing_input :
    ((pqPop (build_priority_queue "AP_1" 0
        [{ id := "u1", floor := 0, x := 0, y := 0, assigned_ap := some "AP_1",
           RSSI := -90 },
         { id := "u2", floor := 0, x := 0, y := 0, assigned_ap := some "AP_1",
           RSSI := -50 }])).map fun r => r.1.2.2.id) = some "u2" ∧
      (-90 : ℤ) < -50 :=
  ⟨rfl, by decide⟩

/-! ### Python-dict helper lemmas -/

lemma pyDictInsert_of_not_key {k : String} {v : Option String}
    {d : List (String × Option String)} (h : (d.any fun p => p.1 == k) = false) :
    pyDictInsert k v d = d ++ [(k, v)] := by
  unfold pyDictInsert
  rw [h]
  simp

lemma pyDictOf_go (ps : List (String × Option String)) :
    ∀ acc : List (String × Option String),
      (acc.map Prod.fst ++ ps.map Prod.fst).Nodup →
      ps.foldl (fun d p => pyDictInsert p.1 p.2 d) acc = acc ++ ps := by
  induction ps with
  | nil => intro acc _; simp
  | cons p ps ih =>
    intro acc h
    have hnotin : p.1 ∉ acc.map Prod.fst := by
      simp only [List.map_cons] at h
      have := List.nodup_append.mp h
      intro hmem
      exact this.2.2 hmem (List.mem_cons_self _ _)
    have hany : (acc.any fun q => q.1 == p.1) = false := by
      rw [List.any_eq_false]
      intro q hq
      rw [beq_iff_eq]
      intro hqk
      exact hnotin (hqk ▸ List.mem_map_of_mem Prod.fst hq)
    rw [List.foldl_cons, pyDictInsert_of_not_key hany, ih (acc ++ [p])]
    · simp
    · simp only [List.map_append, List.map_cons, List.map_nil] at h ⊢
      rw [List.append_assoc, List.singleton_append]
      exact h

lemma pyDictOf_of_nodup_keys {ps : List (String × Option String)}
    (h : (ps.map Prod.fst).Nodup) : pyDictOf ps = ps := by
  have := pyDictOf_go ps [] (by simpa using h)
  simpa [pyDictOf] using this

lemma ensureAllUsers_of_covered {users : List User} {d : List (String × Option String)}
    (h : ∀ u ∈ users, (d.any fun p => p.1 == u.id) = true) :
    ensureAllUsers users d = d := by
  unfold ensureAllUsers
  induction users with
  | nil => rfl
  | cons u us ih =>
    rw [List.foldl_cons, h u (List.mem_cons_self _ _)]
    exact ih fun w hw => h w (List.mem_cons_of_mem _ hw)

lemma dlookup_map_of_mem {users : List User} {f : User → Option String} {u : User}
    (hmem : u ∈ users) (hN : (users.map User.id).Nodup) :
    dlookup (users.map fun w => (w.id, f w)) u.id = some (f u) := by
  induction users with
  | nil => cases hmem
  | cons w ws ih =>
    simp only [List.map_cons] at hN ⊢
    rcases List.mem_cons.mp hmem with rfl | hmem'
    · simp [dlookup, List.find?]
    · by_cases hid : w.id = u.id
      · exfalso
        have : u.id ∈ ws.map User.id := List.mem_map_of_mem User.id hmem'
        rw [← hid] at this
        exact (List.nodup_cons.mp hN).1 this
      · have : (w.id == u.id) = false := beq_eq_false_iff_ne.mpr hid
        simp only [dlookup, List.find?, this]
        exact ih hmem' (List.nodup_cons.mp hN).2

/-- The extraction scan only ever returns an AP from the list, on the
requested floor (the "hard safety" guard of `MCMFEngine.run` step 4). -/
lemma findAssign_spec {row : String → Option ℤ} {f : Int} :
    ∀ {aps : List AP} {aid : String}, findAssign row f aps = some aid →
      ∃ ap ∈ aps, ap.id = aid ∧ ap.floor = f := by
  intro aps
  induction aps with
  | nil => intro aid h; simp [findAssign] at h
  | cons ap rest ih =>
    intro aid h
    unfold findAssign at h
    by_cases hf : ap.floor ≠ f
    · rw [if_pos hf] at h
      obtain ⟨b, hb, hprop⟩ := ih h
      exact ⟨b, List.mem_cons_of_mem _ hb, hprop⟩
    · rw [if_neg hf] at h
      push_neg at hf
      cases hrow : row ap.id with
      | none =>
        rw [hrow] at h
        obtain ⟨b, hb, hprop⟩ := ih h
        exact ⟨b, List.mem_cons_of_mem _ hb, hprop⟩
      | some v =>
        rw [hrow] at h
        dsimp only at h
        by_cases hv : 1 ≤ v
        · rw [if_pos hv] at h
          obtain rfl : ap.id = aid := by simpa using h
          exact ⟨ap, List.mem_cons_self _ _, rfl, hf⟩
        · rw [if_neg hv] at h
          obtain ⟨b, hb, hprop⟩ := ih h
          exact ⟨b, List.mem_cons_of_mem _ hb, hprop⟩

/-- With unique user ids, the assignments dict of `MCMFEngine.run` is
exactly one pair per user, in input order. -/
lemma mcmfAssignments_eq_map (flow : String → Option (String → Option ℤ))
    (users : List User) (aps : List AP) (hN : (users.map User.id).Nodup) :
    mcmfAssignments flow users aps =
      users.map fun u => (u.id, extractAssigned flow aps u) := by
  unfold mcmfAssignments
  have hkeys : ((users.map fun u => (u.id, extractAssigned flow aps u)).map Prod.fst) =
      users.map User.id := by
    rw [List.map_map]; rfl
  rw [pyDictOf_of_nodup_keys (by rw [hkeys]; exact hN)]
  apply ensureAllUsers_of_covered
  intro u hu
  rw [List.any_eq_true]
  exact ⟨(u.id, extractAssigned flow aps u), List.mem_map_of_mem _ hu, by simp⟩

/-- Identifier lookup is injective on a client list with `Nodup` ids. -/
lemma user_eq_of_id_eq {l : List User} (h : (l.map User.id).Nodup)
    {u w : User} (hu : u ∈ l) (hw : w ∈ l) (hid : w.id = u.id) : w = u :=
  List.inj_on_of_nodup_map h hw hu hid

/-- C2 (counterexample): a user on floor 1 whose floor has no AP at all
(the only AP sits on floor 2) is marked `assigned_ap = None`,
`RSSI = -95` by `update_rssi` — and then `get_state` exports *no* entry
for it: the `visible_users` filter drops every user with
`assigned_ap is None and nearest_ap is None`, so the claim that every
user appears in the exported state is false at this input. -/
theorem get_state_drops_disconnected_user :
    (update_rssi_user "5" [{ id := "AP_2", floor := 2, x := 0, y := 0 }]
        { id := "u0", floor := 1, x := 0, y := 0, assigned_ap := some "AP_2",
          nearest_ap := some "AP_2" }).assigned_ap = none ∧
    (update_rssi_user "5" [{ id := "AP_2", floor := 2, x := 0, y := 0 }]
        { id := "u0", floor := 1, x := 0, y := 0, assigned_ap := some "AP_2",
          nearest_ap := some "AP_2" }).RSSI = -95 ∧
    get_state_client_ids
        [update_rssi_user "5" [{ id := "AP_2", floor := 2, x := 0, y := 0 }]
          { id := "u0", floor := 1, x := 0, y := 0, assigned_ap := some "AP_2",
            nearest_ap := some "AP_2" }] = [] :=
  ⟨rfl, rfl, rfl⟩

/-- C2 (amended): `get_state` exports exactly the users whose
`assigned_ap` or `nearest_ap` is non-`None`: every such user appears in
the exported client list; a user disconnected by `update_rssi` is marked
`assigned_ap = connected_ap = nearest_ap = None` with `RSSI = -95`, and a
user with both fields `None` is omitted from the export. -/
theorem get_state_exports_exactly_connected_users
    (clients : List User) (band : String) (aps : List AP) (u : User)
    (hmem : u ∈ clients) :
    ((u.assigned_ap.isSome ∨ u.nearest_ap.isSome) →
        u.id ∈ get_state_client_ids clients) ∧
    ((update_rssi_user band aps u).assigned_ap = none →
        (update_rssi_user band aps u).RSSI = -95 ∧
        (update_rssi_user band aps u).nearest_ap = none ∧
        (update_rssi_user band aps u).connected_ap = none) ∧
    ((clients.map User.id).Nodup → u.assigned_ap = none → u.nearest_ap = none →
        u.id ∉ get_state_client_ids clients) := by
  refine ⟨?_, ?_, ?_⟩
  · intro hvis
    apply List.mem_map_of_mem
    apply List.mem_filter.mpr
    refine ⟨hmem, ?_⟩
    rcases hvis with h | h <;> simp [h]
  · intro hnone
    unfold update_rssi_user at hnone ⊢
    by_cases hemp : (aps.filter fun ap => ap.floor == u.floor).isEmpty
    · simp [hemp]
    · simp only [hemp, if_false] at hnone ⊢
      rcases hscan : bestApScan band u.x u.y (aps.filter fun ap => ap.floor == u.floor)
        with ⟨b, r⟩
      rw [hscan] at hnone
      cases b with
      | none => simp
      | some aid => simp at hnone
  · intro hnodup hassigned hnearest hinmem
    obtain ⟨w, hwvis, hwid⟩ := List.mem_map.mp hinmem
    obtain ⟨hwmem, hwp⟩ := List.mem_filter.mp hwvis
    have : w = u := user_eq_of_id_eq hnodup hmem hwmem hwid
    subst this
    rw [hassigned, hnearest] at hwp
    simp at hwp

/-- Witness for `get_state_exports_exactly_connected_users` at a concrete
two-user client list. -/
theorem get_state_exports_exactly_connected_users_witness :
    ({ id := "u1", floor := 0, x := 0, y := 0, assigned_ap := some "AP_1" } : User) ∈
        [({ id := "u1", floor := 0, x := 0, y := 0, assigned_ap := some "AP_1" } : User),
         { id := "u2", floor := 0, x := 0, y := 0, assigned_ap := none }] ∧
    ((({ id := "u1", floor := 0, x := 0, y := 0, assigned_ap := some "AP_1" } : User).assigned_ap.isSome ∨
        (({ id := "u1", floor := 0, x := 0, y := 0, assigned_ap := some "AP_1" } : User).nearest_ap.isSome)) →
      "u1" ∈ get_state_client_ids
        [({ id := "u1", floor := 0, x := 0, y := 0, assigned_ap := some "AP_1" } : User),
         { id := "u2", floor := 0, x := 0, y := 0, assigned_ap := none }]) :=
  ⟨by simp,
    ((get_state_exports_exactly_connected_users
      [({ id := "u1", floor := 0, x := 0, y := 0, assigned_ap := some "AP_1" } : User),
       { id := "u2", floor := 0, x := 0, y := 0, assigned_ap := none }]
      "5" [] _ (by simp)).1)⟩

/-- C8: `MCMFEngine.run`'s result is a pure function of the snapshot —
the graph build, the `networkx` solve (modelled as the fixed function
`flow` of the built graph) and the extraction loop contain no source of
nondeterminism, so identical snapshots give identical assignment dicts;
moreover every user id of the input appears exactly once as a key, bound
either to a same-floor AP id from the snapshot or to `None`. -/
theorem mcmf_run_deterministic_and_total
    (flow : String → Option (String → Option ℤ)) (users : List User) (aps : List AP)
    (hN : (users.map User.id).Nodup) :
    (∀ flow₂ users₂ aps₂, flow₂ = flow → users₂ = users → aps₂ = aps →
        mcmfAssignments flow₂ users₂ aps₂ = mcmfAssignments flow users aps) ∧
    (mcmfAssignments flow users aps).map Prod.fst = users.map User.id ∧
    (∀ u ∈ users,
      dlookup (mcmfAssignments flow users aps) u.id =
          some (extractAssigned flow aps u) ∧
        (extractAssigned flow aps u = none ∨
          ∃ ap ∈ aps, extractAssigned flow aps u = some ap.id ∧ ap.floor = u.floor)) := by
  refine ⟨?_, ?_, ?_⟩
  · rintro flow₂ users₂ aps₂ rfl rfl rfl; rfl
  · rw [mcmfAssignments_eq_map flow users aps hN, List.map_map]; rfl
  · intro u hu
    constructor
    · rw [mcmfAssignments_eq_map flow users aps hN]
      exact dlookup_map_of_mem hu hN
    · cases hex : extractAssigned flow aps u with
      | none => exact Or.inl rfl
      | some aid =>
        right
        unfold extractAssigned at hex
        cases hflow : flow u.id with
        | none => rw [hflow] at hex; cases hex
        | some row =>
          rw [hflow] at hex
          obtain ⟨ap, hap, hid, hfl⟩ := findAssign_spec hex
          exact ⟨ap, hap, by rw [hid], hfl⟩

/-- Witness for `mcmf_run_deterministic_and_total` on a concrete
snapshot. -/
theorem mcmf_run_deterministic_and_total_witness :
    (([({ id := "u1", floor := 0, x := 0, y := 0, assigned_ap := none } : User)].map
        User.id).Nodup) ∧
    (mcmfAssignments (fun _ => none)
        [({ id := "u1", floor := 0, x := 0, y := 0, assigned_ap := none } : User)]
        []).map Prod.fst =
      [({ id := "u1", floor := 0, x := 0, y := 0, assigned_ap := none } : User)].map
        User.id :=
  ⟨by decide,
    (mcmf_run_deterministic_and_total (fun _ => none)
      [({ id := "u1", floor := 0, x := 0, y := 0, assigned_ap := none } : User)]
      [] (by decide)).2.1⟩

/-- C10 (counterexample): with no in-band user, `apply_greedy` takes the
decay-only branch `load = max(0, load * 0.82)`, which has no upper clamp:
an AP entering with load 200 (raw bookkept loads above 100 are produced
internally by `apply_mcmf`'s early greedy-fallback branch, which returns
without any clamping) exits `apply_greedy` with load 164 > 100. -/
theorem apply_greedy_load_exceeds_100 :
    ((apply_greedy [] [{ id := "AP_1", floor := 0, x := 0, y := 0, load := 200 }]).2.map
        AP.load) = [164] ∧ ¬ ((164 : ℝ) ≤ 100) := by
  constructor
  · simp [apply_greedy]
    norm_num
  · norm_num

/-- C10 (amended): on the main paths — `apply_greedy` with at least one
in-band user, and `apply_mcmf` when the raw-user-count guard does not
trigger its early greedy fallback — every AP's load is clamped into
[0, 100] by the smoothing loop before the method returns. -/
theorem loads_clamped_on_main_paths
    (runFlow : List User → List AP → Except String (List (String × Option String)))
    (band : String) (prevAsg : List (String × Option String))
    (users : List User) (aps : List AP)
    (hactive : ¬ (users.filter fun u => truthy u.nearest_ap).isEmpty = true)
    (hguard : ¬ ((update_ap_load aps (update_rssi band aps users)).any fun ap =>
        ap.max_users < ap.user_count) = true) :
    (∀ ap ∈ (apply_greedy users aps).2, 0 ≤ ap.load ∧ ap.load ≤ 100) ∧
    (∀ ap ∈ (apply_mcmf runFlow band prevAsg users aps).2.2, 0 ≤ ap.load ∧ ap.load ≤ 100) := by
  have hbound : ∀ (s : ℝ), 0 ≤ max 0 (min s 100) ∧ max 0 (min s 100) ≤ 100 := by
    intro s
    exact ⟨le_max_left _ _, max_le (by norm_num) (min_le_right _ _)⟩
  constructor
  · intro ap hap
    unfold apply_greedy at hap
    rw [if_neg hactive] at hap
    obtain ⟨b, hb, rfl⟩ := List.mem_map.mp hap
    exact hbound _
  · intro ap hap
    unfold apply_mcmf at hap
    rw [if_neg hguard] at hap
    rcases hrun : runFlow (update_rssi band aps users)
        (update_ap_load aps (update_rssi band aps users)) with e | asg <;>
      rw [hrun] at hap <;>
      dsimp only [smoothMcmf] at hap <;>
      obtain ⟨b, hb, rfl⟩ := List.mem_map.mp hap <;>
      exact hbound _

/-- Witness for `loads_clamped_on_main_paths`: one in-band user on a
floor with no AP (so the update pass counts nobody and the mcmf guard is
off). -/
theorem loads_clamped_on_main_paths_witness :
    (¬ (([({ id := "u1", floor := 0, x := 0, y := 0, assigned_ap := none, nearest_ap := some "AP_1" } : User)].filter fun u =>
          truthy u.nearest_ap).isEmpty = true) ∧
      ¬ ((update_ap_load [({ id := "AP_1", floor := 1, x := 0, y := 0 } : AP)]
          (update_rssi "5" [({ id := "AP_1", floor := 1, x := 0, y := 0 } : AP)]
            [({ id := "u1", floor := 0, x := 0, y := 0, assigned_ap := none, nearest_ap := some "AP_1" } : User)])).any fun ap =>
          ap.max_users < ap.user_count) = true) ∧
    (∀ ap ∈ (apply_greedy
        [({ id := "u1", floor := 0, x := 0, y := 0, assigned_ap := none, nearest_ap := some "AP_1" } : User)]
        [({ id := "AP_1", floor := 1, x := 0, y := 0 } : AP)]).2,
      0 ≤ ap.load ∧ ap.load ≤ 100) := by
  have h1 : ¬ (([({ id := "u1", floor := 0, x := 0, y := 0, assigned_ap := none, nearest_ap := some "AP_1" } : User)].filter fun u =>
      truthy u.nearest_ap).isEmpty = true) := by decide
  have h2 : ¬ ((update_ap_load [({ id := "AP_1", floor := 1, x := 0, y := 0 } : AP)]
      (update_rssi "5" [({ id := "AP_1", floor := 1, x := 0, y := 0 } : AP)]
        [({ id := "u1", floor := 0, x := 0, y := 0, assigned_ap := none, nearest_ap := some "AP_1" } : User)])).any fun ap =>
      ap.max_users < ap.user_count) = true := by
    simp [update_ap_load, update_rssi, update_rssi_user, bumpUserCount]
  exact ⟨⟨h1, h2⟩,
    (loads_clamped_on_main_paths (fun _ _ => Except.error "x") "5" [] _ _ h1 h2).1⟩

/-- Witness for `dynamic_capacity_ge_base_and_mono` at a concrete AP and
user counts 0 ≤ 3. -/
theorem dynamic_capacity_ge_base_and_mono_witness :
    (0 : ℕ) ≤ 3 ∧
    ((⟨"AP_1", 0, 0, 0, 0, [], 100, 0, 200, 30, none, 0⟩ : AP).airtime_capacity ≤
        dynamic_capacity ⟨"AP_1", 0, 0, 0, 0, [], 100, 0, 200, 30, none, 0⟩ ∧
      dynamic_capacity { (⟨"AP_1", 0, 0, 0, 0, [], 100, 0, 200, 30, none, 0⟩ : AP) with
          user_count := 0 } ≤
        dynamic_capacity { (⟨"AP_1", 0, 0, 0, 0, [], 100, 0, 200, 30, none, 0⟩ : AP) with
          user_count := 3 }) :=
  ⟨by decide, dynamic_capacity_ge_base_and_mono _ 0 3 (by decide)⟩

/-! ### Bookkeeping-pass characterization -/

lemma clientsFor_append (p q : List User) (aid : String) :
    clientsFor (p ++ q) aid = clientsFor p aid ++ clientsFor q aid :=
  List.filter_append _ _

lemma sumAir_append (p q : List User) : sumAir (p ++ q) = sumAir p + sumAir q := by
  simp [sumAir]

lemma clientsFor_single_mem {u : User} {aid : String} (h : u.assigned_ap = some aid) :
    clientsFor [u] aid = [u] := by
  simp [clientsFor, List.filter, h]

lemma clientsFor_single_not_mem {u : User} {aid : String} (h : u.assigned_ap ≠ some aid) :
    clientsFor [u] aid = [] := by
  simp only [clientsFor, List.filter]
  rw [show (u.assigned_ap == some aid) = false from beq_eq_false_iff_ne.mpr h]

lemma bookkept_irrelevant {us : List User} {u : User} {ap : AP}
    (h : u.assigned_ap ≠ some ap.id) :
    bookkept (us ++ [u]) ap = bookkept us ap := by
  unfold bookkept
  rw [clientsFor_append, clientsFor_single_not_mem h, List.append_nil]

lemma bookkept_relevant {us : List User} {u : User} {ap : AP}
    (h : u.assigned_ap = some ap.id) :
    bookkept (us ++ [u]) ap =
      { ap with load := sumAir (clientsFor us ap.id) + (u.airtime_usage : ℝ),
                connected_clients := (clientsFor us ap.id).map User.id ++ [u.id] } := by
  unfold bookkept
  rw [clientsFor_append, clientsFor_single_mem h, sumAir_append, List.map_append]
  simp [sumAir]

lemma creditUser_bookkept {u : User} {aid : String} (p : List User)
    (hass : u.assigned_ap = some aid) :
    ∀ aps : List AP, (aps.map AP.id).Nodup →
      creditUser aid u (aps.map (bookkept p)) = aps.map (bookkept (p ++ [u])) := by
  intro aps
  induction aps with
  | nil => intro _; rfl
  | cons ap rest ih =>
    intro hN
    simp only [List.map_cons, creditUser]
    have hbid : (bookkept p ap).id = ap.id := rfl
    by_cases hid : ap.id = aid
    · rw [if_pos (hbid.trans hid)]
      have hrel : u.assigned_ap = some ap.id := by rw [hass, hid]
      congr 1
      · rw [bookkept_relevant hrel]
        rfl
      · apply List.map_congr_left
        intro b hb
        have hbneq : b.id ≠ aid := by
          intro hcontra
          have : ap.id ∈ rest.map AP.id := by
            rw [hid, ← hcontra]
            exact List.mem_map_of_mem AP.id hb
          exact (List.nodup_cons.mp (by simpa using hN)).1 this
        exact (bookkept_irrelevant (by rw [hass]; simpa using fun hcc => hbneq hcc.symm)).symm
    · rw [if_neg (hbid.trans_ne hid)]
      rw [ih (List.nodup_cons.mp (by simpa using hN)).2]
      congr 1
      exact (bookkept_irrelevant (by rw [hass]; simpa using fun hcc => hid hcc.symm)).symm

/-- The bookkeeping pass (step 1 of `redistribute`) rebuilds every AP
record to carry exactly the load and client list implied by the current
`assigned_ap` fields. -/
lemma bookkeepAps_eq (aps : List AP) (users : List User)
    (hNa : (aps.map AP.id).Nodup) (hne : ∀ ap ∈ aps, ap.id ≠ "") :
    bookkeepAps aps users = aps.map (bookkept users) := by
  unfold bookkeepAps
  induction users using List.reverseRecOn with
  | nil => rfl
  | append_singleton us u ih =>
    rw [List.foldl_append, ih, List.foldl_cons, List.foldl_nil]
    cases hass : u.assigned_ap with
    | none =>
      apply List.map_congr_left
      intro ap _
      exact (bookkept_irrelevant (by rw [hass]; exact fun hcc => Option.noConfusion hcc)).symm
    | some aid =>
      dsimp only
      by_cases haid : aid = ""
      · rw [if_pos haid]
        apply List.map_congr_left
        intro ap hap
        refine (bookkept_irrelevant ?_).symm
        rw [hass, haid]
        intro hcc
        exact hne ap hap (by simpa using hcc.symm)
      · rw [if_neg haid]
        exact creditUser_bookkept us hass aps hNa

/-! ### Moves preserve the bookkeeping and floor invariants -/

lemma exists_split_of_mem_nodup {users : List User} {u : User} (hu : u ∈ users)
    (hN : (users.map User.id).Nodup) :
    ∃ P Q, users = P ++ u :: Q ∧ (∀ w ∈ P, w.id ≠ u.id) ∧ (∀ w ∈ Q, w.id ≠ u.id) := by
  obtain ⟨P, Q, rfl⟩ := List.append_of_mem hu
  have hmid : u.id ∉ P.map User.id ++ Q.map User.id := by
    have : (P.map User.id ++ u.id :: Q.map User.id).Nodup := by simpa using hN
    exact (List.nodup_cons.mp (List.nodup_middle.mp this)).1
  rw [List.mem_append] at hmid
  push_neg at hmid
  refine ⟨P, Q, rfl, ?_, ?_⟩
  · intro w hw hid
    exact hmid.1 (hid ▸ List.mem_map_of_mem User.id hw)
  · intro w hw hid
    exact hmid.2 (hid ▸ List.mem_map_of_mem User.id hw)

lemma moveUser_users_eq {P Q : List User} {u : User} (aps : List AP)
    (fromId toId : String)
    (hP : ∀ w ∈ P, w.id ≠ u.id) (hQ : ∀ w ∈ Q, w.id ≠ u.id) :
    (moveUser (P ++ u :: Q) aps u fromId toId).1 =
      P ++ { u with assigned_ap := some toId, connected_ap := some toId } :: Q := by
  show (P ++ u :: Q).map (fun w => if w.id = u.id then
      { w with assigned_ap := some toId, connected_ap := some toId } else w) = _
  rw [List.map_append, List.map_cons]
  have hPmap : P.map (fun w => if w.id = u.id then
      ({ w with assigned_ap := some toId, connected_ap := some toId } : User) else w) = P := by
    conv_rhs => rw [← List.map_id P]
    exact List.map_congr_left fun w hw => by rw [if_neg (hP w hw)]; rfl
  have hQmap : Q.map (fun w => if w.id = u.id then
      ({ w with assigned_ap := some toId, connected_ap := some toId } : User) else w) = Q := by
    conv_rhs => rw [← List.map_id Q]
    exact List.map_congr_left fun w hw => by rw [if_neg (hQ w hw)]; rfl
  rw [hPmap, hQmap, if_pos rfl]

lemma moveUser_shape (users : List User) (aps : List AP) (u : User)
    (fromId toId : String) :
    (moveUser users aps u fromId toId).1.map eraseAssign = users.map eraseAssign ∧
    (moveUser users aps u fromId toId).2.map eraseApLoad = aps.map eraseApLoad := by
  constructor
  · simp only [moveUser, List.map_map]
    apply List.map_congr_left
    intro w _
    simp only [Function.comp_apply]
    by_cases h : w.id = u.id
    · rw [if_pos h]
      rfl
    · rw [if_neg h]
  · simp only [moveUser, List.map_map]
    apply List.map_congr_left
    intro ap _
    simp only [Function.comp_apply]
    by_cases h1 : ap.id = fromId
    · rw [if_pos h1]
      rfl
    · rw [if_neg h1]
      by_cases h2 : ap.id = toId
      · rw [if_pos h2]
        rfl
      · rw [if_neg h2]

lemma map_id_of_map_eraseAssign {l₁ l₂ : List User}
    (h : l₁.map eraseAssign = l₂.map eraseAssign) :
    l₁.map User.id = l₂.map User.id := by
  have h1 : l₁.map User.id = (l₁.map eraseAssign).map User.id := by
    rw [List.map_map]; rfl
  have h2 : l₂.map User.id = (l₂.map eraseAssign).map User.id := by
    rw [List.map_map]; rfl
  rw [h1, h2, h]

lemma map_id_of_map_eraseApLoad {l₁ l₂ : List AP}
    (h : l₁.map eraseApLoad = l₂.map eraseApLoad) :
    l₁.map AP.id = l₂.map AP.id := by
  have h1 : l₁.map AP.id = (l₁.map eraseApLoad).map AP.id := by
    rw [List.map_map]; rfl
  have h2 : l₂.map AP.id = (l₂.map eraseApLoad).map AP.id := by
    rw [List.map_map]; rfl
  rw [h1, h2, h]

lemma LoadInv_move {users : List User} {aps : List AP} {u : User} {fromId toId : String}
    (hInv : LoadInv users aps) (hu : u ∈ users) (hass : u.assigned_ap = some fromId)
    (hne : toId ≠ fromId) (hNu : (users.map User.id).Nodup) :
    LoadInv (moveUser users aps u fromId toId).1 (moveUser users aps u fromId toId).2 := by
  obtain ⟨P, Q, rfl, hP, hQ⟩ := exists_split_of_mem_nodup hu hNu
  rw [moveUser_users_eq aps fromId toId hP hQ]
  intro ap' hap'
  simp only [moveUser] at hap'
  obtain ⟨ap, hap, rfl⟩ := List.mem_map.mp hap'
  obtain ⟨hcc, hload⟩ := hInv ap hap
  have hCold : clientsFor (P ++ u :: Q) ap.id =
      clientsFor P ap.id ++ clientsFor [u] ap.id ++ clientsFor Q ap.id := by
    rw [show P ++ u :: Q = P ++ [u] ++ Q by simp, clientsFor_append, clientsFor_append]
  have hCnew : clientsFor
        (P ++ { u with assigned_ap := some toId, connected_ap := some toId } :: Q) ap.id =
      clientsFor P ap.id ++
        clientsFor [{ u with assigned_ap := some toId, connected_ap := some toId }] ap.id ++
        clientsFor Q ap.id := by
    rw [show P ++ ({ u with assigned_ap := some toId, connected_ap := some toId } : User) :: Q =
        P ++ [{ u with assigned_ap := some toId, connected_ap := some toId }] ++ Q by simp,
      clientsFor_append, clientsFor_append]
  by_cases hfrom : ap.id = fromId
  · rw [if_pos hfrom]
    have holdu : clientsFor [u] ap.id = [u] :=
      clientsFor_single_mem (by rw [hass, hfrom])
    have hnewu : clientsFor
        [{ u with assigned_ap := some toId, connected_ap := some toId }] ap.id = [] := by
      apply clientsFor_single_not_mem
      simp only
      intro hcontra
      exact hne (by injection hcontra with h1; rw [h1, hfrom])
    constructor
    · show ((ap.connected_clients.erase u.id : List String) : Multiset String) = _
      rw [Multiset.coe_eq_coe]
      have h1 : ap.connected_clients.Perm ((clientsFor (P ++ u :: Q) ap.id).map User.id) :=
        Multiset.coe_eq_coe.mp hcc
      have h2 := h1.erase u.id
      refine h2.trans ?_
      rw [hCold, holdu, hCnew, hnewu, List.append_nil]
      rw [List.map_append, List.map_append, List.map_append]
      have hPid : u.id ∉ (clientsFor P ap.id).map User.id := by
        intro hmem
        obtain ⟨w, hw, hwid⟩ := List.mem_map.mp hmem
        exact hP w (List.mem_of_mem_filter hw) hwid
      rw [List.append_assoc, List.erase_append_right _ hPid]
      simp only [List.map_cons, List.map_nil, List.singleton_append, List.erase_cons_head]
      exact List.Perm.refl _
    · show ap.load - (u.airtime_usage : ℝ) = _
      rw [hCnew, hnewu, List.append_nil, hload, hCold, holdu]
      rw [sumAir_append, sumAir_append, sumAir_append]
      simp [sumAir]
      ring
  · rw [if_neg hfrom]
    by_cases hto : ap.id = toId
    · rw [if_pos hto]
      have holdu : clientsFor [u] ap.id = [] := by
        apply clientsFor_single_not_mem
        rw [hass]
        intro hcontra
        exact hfrom (by injection hcontra with h1; rw [h1])
      have hnewu : clientsFor
          [{ u with assigned_ap := some toId, connected_ap := some toId }] ap.id =
          [{ u with assigned_ap := some toId, connected_ap := some toId }] :=
        clientsFor_single_mem (by rw [hto])
      constructor
      · show ((ap.connected_clients ++ [u.id] : List String) : Multiset String) = _
        rw [Multiset.coe_eq_coe]
        have h1 : ap.connected_clients.Perm
            ((clientsFor (P ++ u :: Q) ap.id).map User.id) := Multiset.coe_eq_coe.mp hcc
        rw [hCold, holdu, List.append_nil, List.map_append] at h1
        rw [hCnew, hnewu, List.map_append, List.map_append]
        dsimp only [List.map_cons, List.map_nil]
        refine ((h1.append_right [u.id]).trans ?_)
        refine (List.perm_append_singleton _ _).trans ?_
        rw [List.append_assoc, List.singleton_append]
        exact List.perm_middle.symm
      · show ap.load + (u.airtime_usage : ℝ) = _
        rw [hCnew, hnewu, hload, hCold, holdu, List.append_nil]
        rw [sumAir_append, sumAir_append, sumAir_append]
        simp [sumAir]
        ring
    · rw [if_neg hto]
      have holdu : clientsFor [u] ap.id = [] := by
        apply clientsFor_single_not_mem
        rw [hass]
        intro hcontra
        exact hfrom (by injection hcontra with h1; rw [h1])
      have hnewu : clientsFor
          [{ u with assigned_ap := some toId, connected_ap := some toId }] ap.id = [] := by
        apply clientsFor_single_not_mem
        simp only
        intro hcontra
        exact hto (by injection hcontra with h1; rw [h1])
      have heq : clientsFor
          (P ++ { u with assigned_ap := some toId, connected_ap := some toId } :: Q) ap.id =
          clientsFor (P ++ u :: Q) ap.id := by
        rw [hCold, hCnew, holdu, hnewu]
      exact ⟨by rw [heq]; exact hcc, by rw [heq]; exact hload⟩

lemma FloorSafe_move {users : List User} {aps : List AP} {u : User} {fromId toId : String}
    {alt : AP}
    (hFS : FloorSafe users aps) (hu : u ∈ users)
    (hNu : (users.map User.id).Nodup) (hNa : (aps.map AP.id).Nodup)
    (halt : alt ∈ aps) (haltid : alt.id = toId) (hfl : alt.floor = u.floor) :
    FloorSafe (moveUser users aps u fromId toId).1 (moveUser users aps u fromId toId).2 := by
  have hapid : ∀ b : AP,
      (if b.id = fromId then
        ({ b with load := b.load - (u.airtime_usage : ℝ),
                  connected_clients := b.connected_clients.erase u.id } : AP)
      else if b.id = toId then
        { b with load := b.load + (u.airtime_usage : ℝ),
                 connected_clients := b.connected_clients ++ [u.id] }
      else b).id = b.id := by
    intro b; split_ifs <;> rfl
  have hapfl : ∀ b : AP,
      (if b.id = fromId then
        ({ b with load := b.load - (u.airtime_usage : ℝ),
                  connected_clients := b.connected_clients.erase u.id } : AP)
      else if b.id = toId then
        { b with load := b.load + (u.airtime_usage : ℝ),
                 connected_clients := b.connected_clients ++ [u.id] }
      else b).floor = b.floor := by
    intro b; split_ifs <;> rfl
  have hufl : ∀ w0 : User,
      (if w0.id = u.id then
        ({ w0 with assigned_ap := some toId, connected_ap := some toId } : User)
      else w0).floor = w0.floor := by
    intro w0; split_ifs <;> rfl
  intro w hw ap' hap'
  simp only [moveUser] at hw hap'
  obtain ⟨w0, hw0, rfl⟩ := List.mem_map.mp hw
  obtain ⟨ap, hap, rfl⟩ := List.mem_map.mp hap'
  intro hasg
  rw [hapid ap] at hasg
  rw [hapfl ap, hufl w0]
  by_cases h1 : w0.id = u.id
  · rw [if_pos h1] at hasg
    obtain rfl : w0 = u := user_eq_of_id_eq hNu hu hw0 h1
    have hto : ap.id = toId := by injection hasg with h5; exact h5.symm
    obtain rfl : ap = alt := List.inj_on_of_nodup_map hNa hap halt (by rw [hto, haltid])
    exact hfl
  · rw [if_neg h1] at hasg
    exact hFS w0 hw0 ap hap hasg

/-! ### `find_alternative_ap` only proposes legitimate targets -/

lemma findAltStep_cases (user : User) (acc : Option AP × ℝ) (ap : AP) :
    findAltStep user acc ap = acc ∨
    ((findAltStep user acc ap).1 = some ap ∧ ap.floor = user.floor ∧
      some ap.id ≠ user.assigned_ap) := by
  unfold findAltStep
  by_cases h1 : ap.floor ≠ user.floor
  · rw [if_pos h1]; exact Or.inl rfl
  rw [if_neg h1]
  push_neg at h1
  by_cases h2 : (some ap.id == user.assigned_ap) = true
  · rw [if_pos h2]; exact Or.inl rfl
  rw [if_neg h2]
  have h2' : some ap.id ≠ user.assigned_ap := by
    intro hcontra
    exact h2 (beq_iff_eq.mpr hcontra)
  by_cases h3 : dynamic_capacity ap ≤ ap.load
  · rw [if_pos h3]; exact Or.inl rfl
  rw [if_neg h3]
  dsimp only
  by_cases h4 : ap.coverage_radius < dist2 user.x user.y ap.x ap.y
  · rw [if_pos h4]; exact Or.inl rfl
  rw [if_neg h4]
  by_cases h5 : dist2 user.x user.y ap.x ap.y ≤ 0
  · rw [if_pos h5]; exact Or.inl rfl
  rw [if_neg h5]
  by_cases h6 : acc.2 < -30 - 20 * Real.logb 10 (dist2 user.x user.y ap.x ap.y)
  · rw [if_pos h6]; exact Or.inr ⟨rfl, h1, h2'⟩
  · rw [if_neg h6]; exact Or.inl rfl

lemma findAlt_go {user : User} :
    ∀ (l : List AP) (acc : Option AP × ℝ) (alt : AP),
      (l.foldl (findAltStep user) acc).1 = some alt →
      acc.1 = some alt ∨
        (alt ∈ l ∧ alt.floor = user.floor ∧ some alt.id ≠ user.assigned_ap) := by
  intro l
  induction l with
  | nil => intro acc alt h; exact Or.inl h
  | cons ap rest ih =>
    intro acc alt h
    rw [List.foldl_cons] at h
    rcases findAltStep_cases user acc ap with hcase | ⟨hsome, hfl, hne⟩
    · rw [hcase] at h
      rcases ih acc alt h with h' | ⟨hmem, hrest⟩
      · exact Or.inl h'
      · exact Or.inr ⟨List.mem_cons_of_mem _ hmem, hrest⟩
    · rcases ih (findAltStep user acc ap) alt h with h' | ⟨hmem, hrest⟩
      · rw [hsome] at h'
        obtain rfl : ap = alt := by injection h'
        exact Or.inr ⟨List.mem_cons_self _ _, hfl, hne⟩
      · exact Or.inr ⟨List.mem_cons_of_mem _ hmem, hrest⟩

/-- A successful `find_alternative_ap` returns an AP of the list, on the
user's own floor, different from the user's current AP. -/
lemma find_alternative_ap_spec {aps : List AP} {user : User} {alt : AP}
    (h : find_alternative_ap aps user = some alt) :
    alt ∈ aps ∧ alt.floor = user.floor ∧ some alt.id ≠ user.assigned_ap := by
  rcases findAlt_go aps (none, -200) alt h with h' | h'
  · cases h'
  · exact h'

/-! ### Priority-queue contents -/

lemma build_priority_queue_users (apId : String) :
    ∀ (n : ℕ) (users : List User),
      ((build_priority_queue apId n users).map fun e => e.2.2) = clientsFor users apId := by
  intro n users
  induction users generalizing n with
  | nil => rfl
  | cons u us ih =>
    by_cases h : (u.assigned_ap == some apId) = true
    · have hq : build_priority_queue apId n (u :: us) =
          (|u.RSSI|, n, u) :: build_priority_queue apId (n + 1) us := by
        simp [build_priority_queue, h]
      rw [hq, List.map_cons, ih (n + 1)]
      have hc : clientsFor (u :: us) apId = u :: clientsFor us apId := by
        simp [clientsFor, List.filter_cons, h]
      rw [hc]
    · have hq : build_priority_queue apId n (u :: us) = build_priority_queue apId n us := by
        simp [build_priority_queue, h]
      rw [hq, ih n]
      have hc : clientsFor (u :: us) apId = clientsFor us apId := by
        simp [clientsFor, List.filter_cons, h]
      rw [hc]

lemma build_priority_queue_mem {apId : String} {n : ℕ} {users : List User} {e : PqEntry}
    (he : e ∈ build_priority_queue apId n users) :
    e.2.2 ∈ users ∧ e.2.2.assigned_ap = some apId := by
  have hmem : e.2.2 ∈ (build_priority_queue apId n users).map fun e' => e'.2.2 :=
    List.mem_map_of_mem _ he
  rw [build_priority_queue_users] at hmem
  exact ⟨List.mem_of_mem_filter hmem,
    beq_iff_eq.mp (List.mem_filter.mp hmem).2⟩

lemma build_priority_queue_nodup {apId : String} {n : ℕ} {users : List User}
    (hN : (users.map User.id).Nodup) :
    ((build_priority_queue apId n users).map fun e => e.2.2.id).Nodup := by
  have h1 : ((build_priority_queue apId n users).map fun e => e.2.2.id) =
      ((build_priority_queue apId n users).map fun e => e.2.2).map User.id := by
    rw [List.map_map]; rfl
  rw [h1, build_priority_queue_users]
  exact hN.sublist ((List.filter_sublist _).map _)

/-! ### The one-AP loop preserves the invariants -/

/-- The loop changes nothing on a user except its assignment fields, and
nothing on an AP except its load and connected list. -/
lemma processApGo_shape (apId : String) (cap : ℝ) :
    ∀ (fuel : ℕ) (pq : List PqEntry) (users : List User) (aps : List AP),
      (processApGo apId cap fuel pq users aps).1.map eraseAssign =
          users.map eraseAssign ∧
        (processApGo apId cap fuel pq users aps).2.map eraseApLoad =
          aps.map eraseApLoad := by
  intro fuel
  induction fuel with
  | zero => intro pq users aps; exact ⟨rfl, rfl⟩
  | succ fuel ih =>
    intro pq users aps
    show (processApGo apId cap (fuel + 1) pq users aps).1.map eraseAssign = _ ∧ _
    rw [processApGo]
    by_cases hload : cap < apLoad aps apId
    · rw [if_pos hload]
      cases hpop : pqPop pq with
      | none => exact ⟨rfl, rfl⟩
      | some pr =>
        obtain ⟨e, rest⟩ := pr
        dsimp only
        cases halt : find_alternative_ap aps e.2.2 with
        | none => exact ⟨rfl, rfl⟩
        | some alt =>
          dsimp only
          have hmshape := moveUser_shape users aps e.2.2 apId alt.id
          obtain ⟨a1, a2⟩ :=
            ih rest (moveUser users aps e.2.2 apId alt.id).1
              (moveUser users aps e.2.2 apId alt.id).2
          exact ⟨a1.trans hmshape.1, a2.trans hmshape.2⟩
    · rw [if_neg hload]
      exact ⟨rfl, rfl⟩

/-- The loop preserves the bookkeeping invariant (claim C4). -/
lemma processApGo_inv (apId : String) (cap : ℝ) :
    ∀ (fuel : ℕ) (pq : List PqEntry) (users : List User) (aps : List AP),
      LoadInv users aps →
      (users.map User.id).Nodup →
      (∀ e ∈ pq, e.2.2 ∈ users ∧ e.2.2.assigned_ap = some apId) →
      ((pq.map fun e => e.2.2.id).Nodup) →
      LoadInv (processApGo apId cap fuel pq users aps).1
        (processApGo apId cap fuel pq users aps).2 := by
  intro fuel
  induction fuel with
  | zero => intro pq users aps hInv _ _ _; exact hInv
  | succ fuel ih =>
    intro pq users aps hInv hNu hpq hpqN
    show LoadInv (processApGo apId cap (fuel + 1) pq users aps).1 _
    rw [processApGo]
    by_cases hload : cap < apLoad aps apId
    · rw [if_pos hload]
      cases hpop : pqPop pq with
      | none => exact hInv
      | some pr =>
        obtain ⟨e, rest⟩ := pr
        dsimp only
        cases halt : find_alternative_ap aps e.2.2 with
        | none => exact hInv
        | some alt =>
          dsimp only
          have hperm := pqPop_perm hpop
          have hein : e ∈ pq := hperm.mem_iff.mpr (List.mem_cons_self _ _)
          obtain ⟨heu, hea⟩ := hpq e hein
          obtain ⟨haltmem, haltfl, haltid⟩ := find_alternative_ap_spec halt
          have hne : alt.id ≠ apId := fun hcontra => haltid (by rw [hcontra, hea])
          have hpermids :
              (pq.map fun e' => e'.2.2.id).Perm
                (e.2.2.id :: rest.map fun e' => e'.2.2.id) := by
            simpa using hperm.map fun e' => e'.2.2.id
          have hrestN := hpermids.nodup_iff.mp hpqN
          have hrestids : e.2.2.id ∉ rest.map fun e' => e'.2.2.id :=
            (List.nodup_cons.mp hrestN).1
          have hrestN2 : (rest.map fun e' => e'.2.2.id).Nodup :=
            (List.nodup_cons.mp hrestN).2
          have hmshape := moveUser_shape users aps e.2.2 apId alt.id
          have hInv' := LoadInv_move hInv heu hea hne hNu
          have hNu' : ((moveUser users aps e.2.2 apId alt.id).1.map User.id).Nodup := by
            rw [map_id_of_map_eraseAssign hmshape.1]; exact hNu
          have hpq' : ∀ e' ∈ rest,
              e'.2.2 ∈ (moveUser users aps e.2.2 apId alt.id).1 ∧
                e'.2.2.assigned_ap = some apId := by
            intro e' he'
            have he'pq : e' ∈ pq := hperm.mem_iff.mpr (List.mem_cons_of_mem _ he')
            obtain ⟨hmem, hass⟩ := hpq e' he'pq
            refine ⟨?_, hass⟩
            have hneid : e'.2.2.id ≠ e.2.2.id := by
              intro hcontra
              exact hrestids (hcontra ▸ List.mem_map_of_mem _ he')
            refine List.mem_map.mpr ⟨e'.2.2, hmem, ?_⟩
            rw [if_neg hneid]
          exact ih rest (moveUser users aps e.2.2 apId alt.id).1
            (moveUser users aps e.2.2 apId alt.id).2 hInv' hNu' hpq' hrestN2
    · rw [if_neg hload]
      exact hInv

/-- The loop preserves floor-safety (claim C1): every move it performs
targets an AP on the moved user's own floor. -/
lemma processApGo_floor (apId : String) (cap : ℝ) :
    ∀ (fuel : ℕ) (pq : List PqEntry) (users : List User) (aps : List AP),
      FloorSafe users aps →
      (users.map User.id).Nodup → (aps.map AP.id).Nodup →
      (∀ e ∈ pq, e.2.2 ∈ users ∧ e.2.2.assigned_ap = some apId) →
      ((pq.map fun e => e.2.2.id).Nodup) →
      FloorSafe (processApGo apId cap fuel pq users aps).1
        (processApGo apId cap fuel pq users aps).2 := by
  intro fuel
  induction fuel with
  | zero => intro pq users aps hFS _ _ _ _; exact hFS
  | succ fuel ih =>
    intro pq users aps hFS hNu hNa hpq hpqN
    show FloorSafe (processApGo apId cap (fuel + 1) pq users aps).1 _
    rw [processApGo]
    by_cases hload : cap < apLoad aps apId
    · rw [if_pos hload]
      cases hpop : pqPop pq with
      | none => exact hFS
      | some pr =>
        obtain ⟨e, rest⟩ := pr
        dsimp only
        cases halt : find_alternative_ap aps e.2.2 with
        | none => exact hFS
        | some alt =>
          dsimp only
          have hperm := pqPop_perm hpop
          have hein : e ∈ pq := hperm.mem_iff.mpr (List.mem_cons_self _ _)
          obtain ⟨heu, hea⟩ := hpq e hein
          obtain ⟨haltmem, haltfl, haltid⟩ := find_alternative_ap_spec halt
          have hpermids :
              (pq.map fun e' => e'.2.2.id).Perm
                (e.2.2.id :: rest.map fun e' => e'.2.2.id) := by
            simpa using hperm.map fun e' => e'.2.2.id
          have hrestN := hpermids.nodup_iff.mp hpqN
          have hrestids : e.2.2.id ∉ rest.map fun e' => e'.2.2.id :=
            (List.nodup_cons.mp hrestN).1
          have hrestN2 : (rest.map fun e' => e'.2.2.id).Nodup :=
            (List.nodup_cons.mp hrestN).2
          have hmshape := moveUser_shape users aps e.2.2 apId alt.id
          have hFS' := @FloorSafe_move users aps e.2.2 apId alt.id alt
            hFS heu hNu hNa haltmem rfl haltfl
          have hNu' : ((moveUser users aps e.2.2 apId alt.id).1.map User.id).Nodup := by
            rw [map_id_of_map_eraseAssign hmshape.1]; exact hNu
          have hNa' : ((moveUser users aps e.2.2 apId alt.id).2.map AP.id).Nodup := by
            rw [map_id_of_map_eraseApLoad hmshape.2]; exact hNa
          have hpq' : ∀ e' ∈ rest,
              e'.2.2 ∈ (moveUser users aps e.2.2 apId alt.id).1 ∧
                e'.2.2.assigned_ap = some apId := by
            intro e' he'
            have he'pq : e' ∈ pq := hperm.mem_iff.mpr (List.mem_cons_of_mem _ he')
            obtain ⟨hmem, hass⟩ := hpq e' he'pq
            refine ⟨?_, hass⟩
            have hneid : e'.2.2.id ≠ e.2.2.id := by
              intro hcontra
              exact hrestids (hcontra ▸ List.mem_map_of_mem _ he')
            refine List.mem_map.mpr ⟨e'.2.2, hmem, ?_⟩
            rw [if_neg hneid]
          exact ih rest (moveUser users aps e.2.2 apId alt.id).1
            (moveUser users aps e.2.2 apId alt.id).2 hFS' hNu' hNa' hpq' hrestN2
    · rw [if_neg hload]
      exact hFS

/-! ### `redistribute`-level preservation -/

lemma redistribute_go_shape (users : List User) (aps₁ : List AP) :
    ∀ (ids : List String) (st : List User × List AP),
      st.1.map eraseAssign = users.map eraseAssign →
      st.2.map eraseApLoad = aps₁.map eraseApLoad →
      (ids.foldl (fun st aid =>
          processAp aid (apCap st.2 aid) (build_priority_queue aid 0 st.1) st.1 st.2)
        st).1.map eraseAssign = users.map eraseAssign ∧
      (ids.foldl (fun st aid =>
          processAp aid (apCap st.2 aid) (build_priority_queue aid 0 st.1) st.1 st.2)
        st).2.map eraseApLoad = aps₁.map eraseApLoad := by
  intro ids
  induction ids with
  | nil => intro st h3 h4; exact ⟨h3, h4⟩
  | cons aid ids ih =>
    intro st h3 h4
    rw [List.foldl_cons]
    have hshape := processApGo_shape aid (apCap st.2 aid)
      (build_priority_queue aid 0 st.1).length (build_priority_queue aid 0 st.1) st.1 st.2
    exact ih _ (hshape.1.trans h3) (hshape.2.trans h4)

lemma redistribute_go_inv (users : List User) :
    ∀ (ids : List String) (st : List User × List AP),
      LoadInv st.1 st.2 →
      st.1.map eraseAssign = users.map eraseAssign →
      (users.map User.id).Nodup →
      LoadInv
        ((ids.foldl (fun st aid =>
            processAp aid (apCap st.2 aid) (build_priority_queue aid 0 st.1) st.1 st.2)
          st)).1
        ((ids.foldl (fun st aid =>
            processAp aid (apCap st.2 aid) (build_priority_queue aid 0 st.1) st.1 st.2)
          st)).2 := by
  intro ids
  induction ids with
  | nil => intro st h1 _ _; exact h1
  | cons aid ids ih =>
    intro st h1 h3 hNu
    rw [List.foldl_cons]
    have hNu' : (st.1.map User.id).Nodup := by
      rw [map_id_of_map_eraseAssign h3]; exact hNu
    have hinv := processApGo_inv aid (apCap st.2 aid)
      (build_priority_queue aid 0 st.1).length (build_priority_queue aid 0 st.1) st.1 st.2
      h1 hNu' (fun e he => build_priority_queue_mem he) (build_priority_queue_nodup hNu')
    have hshape := processApGo_shape aid (apCap st.2 aid)
      (build_priority_queue aid 0 st.1).length (build_priority_queue aid 0 st.1) st.1 st.2
    exact ih _ hinv (hshape.1.trans h3) hNu
lemma redistribute_go_floor (users : List User) (aps₁ : List AP) :
    ∀ (ids : List String) (st : List User × List AP),
      FloorSafe st.1 st.2 →
      st.1.map eraseAssign = users.map eraseAssign →
      st.2.map eraseApLoad = aps₁.map eraseApLoad →
      (users.map User.id).Nodup → (aps₁.map AP.id).Nodup →
      FloorSafe
        ((ids.foldl (fun st aid =>
            processAp aid (apCap st.2 aid) (build_priority_queue aid 0 st.1) st.1 st.2)
          st)).1
        ((ids.foldl (fun st aid =>
            processAp aid (apCap st.2 aid) (build_priority_queue aid 0 st.1) st.1 st.2)
          st)).2 := by
  intro ids
  induction ids with
  | nil => intro st h2 _ _ _ _; exact h2
  | cons aid ids ih =>
    intro st h2 h3 h4 hNu hNa
    rw [List.foldl_cons]
    have hNu' : (st.1.map User.id).Nodup := by
      rw [map_id_of_map_eraseAssign h3]; exact hNu
    have hNa' : (st.2.map AP.id).Nodup := by
      rw [map_id_of_map_eraseApLoad h4]; exact hNa
    have hfs := processApGo_floor aid (apCap st.2 aid)
      (build_priority_queue aid 0 st.1).length (build_priority_queue aid 0 st.1) st.1 st.2
      h2 hNu' hNa' (fun e he => build_priority_queue_mem he) (build_priority_queue_nodup hNu')
    have hshape := processApGo_shape aid (apCap st.2 aid)
      (build_priority_queue aid 0 st.1).length (build_priority_queue aid 0 st.1) st.1 st.2
    exact ih _ hfs (hshape.1.trans h3) (hshape.2.trans h4) hNu hNa

/-- `redistribute` unfolded to its fold over the overloaded AP ids. -/
lemma redistribute_eq (users : List User) (aps : List AP) :
    redistribute users aps =
      (get_overloaded_ids (bookkeepAps aps users)).foldl
        (fun st aid =>
          processAp aid (apCap st.2 aid) (build_priority_queue aid 0 st.1) st.1 st.2)
        (users, bookkeepAps aps users) := rfl

/-- The bookkept AP list satisfies the bookkeeping invariant against the
unchanged user list. -/
lemma LoadInv_bookkeep (users : List User) (aps : List AP)
    (hNa : (aps.map AP.id).Nodup) (hne : ∀ ap ∈ aps, ap.id ≠ "") :
    LoadInv users (bookkeepAps aps users) := by
  rw [bookkeepAps_eq aps users hNa hne]
  intro ap' hap'
  obtain ⟨ap, hap, rfl⟩ := List.mem_map.mp hap'
  exact ⟨rfl, rfl⟩

lemma FloorSafe_bookkeep (users : List User) (aps : List AP)
    (hNa : (aps.map AP.id).Nodup) (hne : ∀ ap ∈ aps, ap.id ≠ "")
    (hFS : FloorSafe users aps) :
    FloorSafe users (bookkeepAps aps users) := by
  rw [bookkeepAps_eq aps users hNa hne]
  intro u hu ap' hap' hass
  obtain ⟨ap, hap, rfl⟩ := List.mem_map.mp hap'
  exact hFS u hu ap hap hass

lemma bookkeepAps_map_id (users : List User) (aps : List AP)
    (hNa : (aps.map AP.id).Nodup) (hne : ∀ ap ∈ aps, ap.id ≠ "") :
    (bookkeepAps aps users).map AP.id = aps.map AP.id := by
  rw [bookkeepAps_eq aps users hNa hne, List.map_map]
  exact List.map_congr_left fun ap _ => rfl

/-- Bookkeeping is idempotent: it reads only AP ids, which it preserves,
and replaces load/connected-list with values computed from the users. -/
lemma bookkeepAps_idem (users : List User) (aps : List AP)
    (hNa : (aps.map AP.id).Nodup) (hne : ∀ ap ∈ aps, ap.id ≠ "") :
    bookkeepAps (bookkeepAps aps users) users = bookkeepAps aps users := by
  have e1 := bookkeepAps_eq aps users hNa hne
  have hNa1 : ((aps.map (bookkept users)).map AP.id).Nodup := by
    rw [List.map_map]
    exact (List.map_congr_left fun ap _ => rfl : (aps.map fun ap =>
      (bookkept users ap).id) = aps.map AP.id) ▸ hNa
  have hne1 : ∀ ap' ∈ aps.map (bookkept users), ap'.id ≠ "" := by
    intro ap' hap'
    obtain ⟨ap, hap, rfl⟩ := List.mem_map.mp hap'
    exact hne ap hap
  calc bookkeepAps (bookkeepAps aps users) users
      = bookkeepAps (aps.map (bookkept users)) users := by rw [e1]
    _ = (aps.map (bookkept users)).map (bookkept users) :=
        bookkeepAps_eq _ users hNa1 hne1
    _ = aps.map (bookkept users) := by
        rw [List.map_map]
        exact List.map_congr_left fun ap _ => rfl
    _ = bookkeepAps aps users := e1.symm

/-! ### `update_rssi` bookkeeping helpers -/

lemma update_rssi_user_id (band : String) (aps : List AP) (u : User) :
    (update_rssi_user band aps u).id = u.id := by
  unfold update_rssi_user
  by_cases hemp : (aps.filter fun ap => ap.floor == u.floor).isEmpty
  · rw [if_pos hemp]
  · rw [if_neg hemp]
    rcases bestApScan band u.x u.y (aps.filter fun ap => ap.floor == u.floor) with ⟨b, r⟩
    cases b <;> rfl

lemma update_rssi_map_id (band : String) (aps : List AP) (users : List User) :
    (update_rssi band aps users).map User.id = users.map User.id := by
  unfold update_rssi
  rw [List.map_map]
  exact List.map_congr_left fun u _ => update_rssi_user_id band aps u

lemma map_idnearest_of_map_eraseAssign {l₁ l₂ : List User}
    (h : l₁.map eraseAssign = l₂.map eraseAssign) :
    (l₁.map fun u => (u.id, u.nearest_ap)) = l₂.map fun u => (u.id, u.nearest_ap) := by
  have h1 : (l₁.map fun u => (u.id, u.nearest_ap)) =
      (l₁.map eraseAssign).map fun u => (u.id, u.nearest_ap) := by
    rw [List.map_map]; rfl
  have h2 : (l₂.map fun u => (u.id, u.nearest_ap)) =
      (l₂.map eraseAssign).map fun u => (u.id, u.nearest_ap) := by
    rw [List.map_map]; rfl
  rw [h1, h2, h]

/-! ### The best-AP scan of `update_rssi` -/

lemma candRssi_ge (band : String) (ux uy : ℝ) (ap : AP) :
    (-95 : ℝ) ≤ candRssi band ux uy ap :=
  le_max_left _ _

/-- Invariant of the fold in `update_rssi`'s scan: the running best RSSI
never drops, dominates every in-coverage candidate seen so far, and the
running best AP is either still the initial one or an in-coverage
candidate achieving the running best RSSI strictly above −95. -/
lemma bestApScan_go (band : String) (ux uy : ℝ) :
    ∀ (l : List AP) (acc : Option String × ℝ), -95 ≤ acc.2 →
      (-95 : ℝ) ≤ (l.foldl (bestApStep band ux uy) acc).2 ∧
      acc.2 ≤ (l.foldl (bestApStep band ux uy) acc).2 ∧
      (∀ ap ∈ l, ¬ bandCoverage band < dist2 ux uy ap.x ap.y →
        candRssi band ux uy ap ≤ (l.foldl (bestApStep band ux uy) acc).2) ∧
      (l.foldl (bestApStep band ux uy) acc = acc ∨
        ∃ ap ∈ l, ¬ bandCoverage band < dist2 ux uy ap.x ap.y ∧
          (l.foldl (bestApStep band ux uy) acc).1 = some ap.id ∧
          (l.foldl (bestApStep band ux uy) acc).2 = candRssi band ux uy ap ∧
          (-95 : ℝ) < (l.foldl (bestApStep band ux uy) acc).2) := by
  intro l
  induction l with
  | nil =>
    intro acc hacc
    exact ⟨hacc, le_rfl, fun ap hap => absurd hap (List.not_mem_nil ap), Or.inl rfl⟩
  | cons ap l ih =>
    intro acc hacc
    rw [List.foldl_cons]
    by_cases hcov : bandCoverage band < dist2 ux uy ap.x ap.y
    · have hstep : bestApStep band ux uy acc ap = acc := by
        unfold bestApStep
        rw [if_pos hcov]
      rw [hstep]
      obtain ⟨a1, a2, a3, a4⟩ := ih acc hacc
      refine ⟨a1, a2, ?_, ?_⟩
      · intro ap' hap' hcov'
        rcases List.mem_cons.mp hap' with rfl | hmem
        · exact absurd hcov hcov'
        · exact a3 ap' hmem hcov'
      · rcases a4 with h | ⟨b, hb, hprop⟩
        · exact Or.inl h
        · exact Or.inr ⟨b, List.mem_cons_of_mem _ hb, hprop⟩
    · by_cases hlt : acc.2 < candRssi band ux uy ap
      · have hstep : bestApStep band ux uy acc ap =
            (some ap.id, candRssi band ux uy ap) := by
          unfold bestApStep
          rw [if_neg hcov]
          dsimp only
          rw [if_pos hlt]
        rw [hstep]
        obtain ⟨a1, a2, a3, a4⟩ := ih (some ap.id, candRssi band ux uy ap)
          (candRssi_ge band ux uy ap)
        refine ⟨a1, le_trans (le_of_lt hlt) a2, ?_, ?_⟩
        · intro ap' hap' hcov'
          rcases List.mem_cons.mp hap' with rfl | hmem
          · exact a2
          · exact a3 ap' hmem hcov'
        · rcases a4 with h | ⟨b, hb, hprop⟩
          · rw [h]
            exact Or.inr ⟨ap, List.mem_cons_self _ _, hcov, rfl, rfl,
              lt_of_le_of_lt hacc hlt⟩
          · exact Or.inr ⟨b, List.mem_cons_of_mem _ hb, hprop⟩
      · have hstep : bestApStep band ux uy acc ap = acc := by
          unfold bestApStep
          rw [if_neg hcov]
          dsimp only
          rw [if_neg hlt]
        rw [hstep]
        obtain ⟨a1, a2, a3, a4⟩ := ih acc hacc
        refine ⟨a1, a2, ?_, ?_⟩
        · intro ap' hap' hcov'
          rcases List.mem_cons.mp hap' with rfl | hmem
          · exact le_trans (not_lt.mp hlt) a2
          · exact a3 ap' hmem hcov'
        · rcases a4 with h | ⟨b, hb, hprop⟩
          · exact Or.inl h
          · exact Or.inr ⟨b, List.mem_cons_of_mem _ hb, hprop⟩

/-- C4: with unique user/AP ids (and no empty AP id, since `if aid:`
treats the empty string as unassigned), the bookkeeping pass of
`GreedyRedistributor.redistribute` leaves every AP's `connected_clients`
holding exactly the ids of the users assigned to it and its load equal to
their total airtime (`LoadInv`), and every user move the rest of
`redistribute` performs preserves that invariant, so it still holds of
the final state. -/
theorem redistribute_bookkeeping_invariant (users : List User) (aps : List AP)
    (hNu : (users.map User.id).Nodup) (hNa : (aps.map AP.id).Nodup)
    (hne : ∀ ap ∈ aps, ap.id ≠ "") :
    LoadInv users (bookkeepAps aps users) ∧
    LoadInv (redistribute users aps).1 (redistribute users aps).2 := by
  refine ⟨LoadInv_bookkeep users aps hNa hne, ?_⟩
  rw [redistribute_eq]
  exact redistribute_go_inv users (get_overloaded_ids (bookkeepAps aps users))
    (users, bookkeepAps aps users) (LoadInv_bookkeep users aps hNa hne) rfl hNu

/-- Witness for `redistribute_bookkeeping_invariant` on a concrete
two-user, one-AP state. -/
theorem redistribute_bookkeeping_invariant_witness :
    (([({ id := "u1", floor := 0, x := 0, y := 0, assigned_ap := some "AP_1" } : User),
       { id := "u2", floor := 0, x := 0, y := 0, assigned_ap := none }].map
        User.id).Nodup) ∧
    LoadInv
      [({ id := "u1", floor := 0, x := 0, y := 0, assigned_ap := some "AP_1" } : User),
       { id := "u2", floor := 0, x := 0, y := 0, assigned_ap := none }]
      (bookkeepAps [({ id := "AP_1", floor := 0, x := 0, y := 0 } : AP)]
        [({ id := "u1", floor := 0, x := 0, y := 0, assigned_ap := some "AP_1" } : User),
         { id := "u2", floor := 0, x := 0, y := 0, assigned_ap := none }]) :=
  ⟨by decide,
    (redistribute_bookkeeping_invariant
      [({ id := "u1", floor := 0, x := 0, y := 0, assigned_ap := some "AP_1" } : User),
       { id := "u2", floor := 0, x := 0, y := 0, assigned_ap := none }]
      [({ id := "AP_1", floor := 0, x := 0, y := 0 } : AP)]
      (by decide) (by decide) (by decide)).1⟩

/-- C7: if, after the bookkeeping pass recomputes loads from the
`assigned_ap` fields, no AP's load exceeds its dynamic capacity, then
`redistribute` changes no user (the overloaded list is empty, so the move
loop never runs), and — since bookkeeping is idempotent and the loads it
recomputes are unchanged — an immediate second invocation changes no
user either. -/
theorem redistribute_idempotent_when_not_overloaded (users : List User) (aps : List AP)
    (hNa : (aps.map AP.id).Nodup) (hne : ∀ ap ∈ aps, ap.id ≠ "")
    (h : ∀ ap ∈ bookkeepAps aps users, ¬ dynamic_capacity ap < ap.load) :
    (redistribute users aps).1 = users ∧
    (redistribute (redistribute users aps).1 (redistribute users aps).2).1 = users := by
  have hover : get_overloaded_ids (bookkeepAps aps users) = [] := by
    unfold get_overloaded_ids
    rw [List.filter_eq_nil_iff.mpr fun ap hap => by simpa using h ap hap]
    rfl
  have h1 : redistribute users aps = (users, bookkeepAps aps users) := by
    rw [redistribute_eq, hover]
    rfl
  refine ⟨by rw [h1], ?_⟩
  rw [h1]
  have hidem := bookkeepAps_idem users aps hNa hne
  have hover2 : get_overloaded_ids (bookkeepAps (bookkeepAps aps users) users) = [] := by
    rw [hidem]; exact hover
  rw [redistribute_eq, hover2]
  rfl

/-- Witness for `redistribute_idempotent_when_not_overloaded` on a
concrete state (one AP, one user assigned to it, load far below
capacity). -/
theorem redistribute_idempotent_when_not_overloaded_witness :
    (∀ ap ∈ bookkeepAps [({ id := "AP_1", floor := 0, x := 0, y := 0 } : AP)]
        [({ id := "u1", floor := 0, x := 0, y := 0, assigned_ap := some "AP_1",
            airtime_usage := 2 } : User)],
      ¬ dynamic_capacity ap < ap.load) ∧
    (redistribute
        [({ id := "u1", floor := 0, x := 0, y := 0, assigned_ap := some "AP_1",
            airtime_usage := 2 } : User)]
        [({ id := "AP_1", floor := 0, x := 0, y := 0 } : AP)]).1 =
      [({ id := "u1", floor := 0, x := 0, y := 0, assigned_ap := some "AP_1",
          airtime_usage := 2 } : User)] := by
  have hcap : ∀ ap ∈ bookkeepAps [({ id := "AP_1", floor := 0, x := 0, y := 0 } : AP)]
      [({ id := "u1", floor := 0, x := 0, y := 0, assigned_ap := some "AP_1",
          airtime_usage := 2 } : User)],
      ¬ dynamic_capacity ap < ap.load := by
    intro ap hap
    simp [bookkeepAps, creditUser] at hap
    subst hap
    rw [not_lt]
    unfold dynamic_capacity
    refine le_trans ?_ (le_max_left _ _)
    norm_num
  exact ⟨hcap,
    (redistribute_idempotent_when_not_overloaded
      [({ id := "u1", floor := 0, x := 0, y := 0, assigned_ap := some "AP_1",
          airtime_usage := 2 } : User)]
      [({ id := "AP_1", floor := 0, x := 0, y := 0 } : AP)]
      (by decide) (by decide) hcap).1⟩

/-- C1: floor is a hard partition everywhere. (i) `build_graph` never
materializes a user→AP edge across floors; (ii) `find_alternative_ap`
only ever proposes a same-floor AP, so `redistribute` preserves the
all-assignments-same-floor invariant `FloorSafe`; (iii) the assignment
extraction of `MCMFEngine.run` never maps a user to a cross-floor AP id,
whatever flow the solver returns. -/
theorem floor_partition_never_crossed (users : List User) (aps : List AP)
    (flow : String → Option (String → Option ℤ))
    (hNu : (users.map User.id).Nodup) (hNa : (aps.map AP.id).Nodup)
    (hne : ∀ ap ∈ aps, ap.id ≠ "") (hFS : FloorSafe users aps) :
    (∀ u ∈ users, ∀ a ∈ aps, u.floor ≠ a.floor →
        (u.id, a.id) ∉ build_graph_user_ap_edges users aps) ∧
    (∀ (u : User) (alt : AP), find_alternative_ap aps u = some alt →
        alt.floor = u.floor) ∧
    FloorSafe (redistribute users aps).1 (redistribute users aps).2 ∧
    (∀ u ∈ users, ∀ a ∈ aps, u.floor ≠ a.floor →
        dlookup (mcmfAssignments flow users aps) u.id ≠ some (some a.id)) := by
  refine ⟨?_, ?_, ?_, ?_⟩
  · intro u hu a ha hfl hmem
    obtain ⟨u', hu', hmem'⟩ := List.mem_flatMap.mp hmem
    obtain ⟨a', ha', heq⟩ := List.mem_map.mp hmem'
    injection heq with hid1 hid2
    obtain rfl : u' = u := user_eq_of_id_eq hNu hu hu' hid1
    have ha'aps : a' ∈ aps := List.mem_of_mem_filter ha'
    obtain rfl : a' = a := List.inj_on_of_nodup_map hNa ha'aps ha hid2
    have hfltr : (a'.floor == u'.floor) = true := (List.mem_filter.mp ha').2
    exact hfl (beq_iff_eq.mp hfltr).symm
  · intro u alt halt
    exact (find_alternative_ap_spec halt).2.1
  · rw [redistribute_eq]
    exact redistribute_go_floor users (bookkeepAps aps users)
      (get_overloaded_ids (bookkeepAps aps users)) (users, bookkeepAps aps users)
      (FloorSafe_bookkeep users aps hNa hne hFS) rfl rfl hNu
      (by rw [bookkeepAps_map_id users aps hNa hne]; exact hNa)
  · intro u hu a ha hfl hcontra
    rw [mcmfAssignments_eq_map flow users aps hNu, dlookup_map_of_mem hu hNu] at hcontra
    have hex : extractAssigned flow aps u = some a.id := by
      injection hcontra
    unfold extractAssigned at hex
    cases hflow : flow u.id with
    | none => rw [hflow] at hex; cases hex
    | some row =>
      rw [hflow] at hex
      obtain ⟨ap, hap, hid, hfl'⟩ := findAssign_spec hex
      have : ap = a := List.inj_on_of_nodup_map hNa hap ha hid
      exact hfl (by rw [← this, hfl'])


/-- Witness for `floor_partition_never_crossed` on a concrete snapshot
with one user on floor 0 and one AP on floor 1. -/
theorem floor_partition_never_crossed_witness :
    FloorSafe [({ id := "u1", floor := 0, x := 0, y := 0, assigned_ap := none } : User)]
      [({ id := "AP_1", floor := 1, x := 0, y := 0 } : AP)] ∧
    (∀ u ∈ [({ id := "u1", floor := 0, x := 0, y := 0, assigned_ap := none } : User)],
      ∀ a ∈ [({ id := "AP_1", floor := 1, x := 0, y := 0 } : AP)],
        u.floor ≠ a.floor →
        (u.id, a.id) ∉ build_graph_user_ap_edges
          [({ id := "u1", floor := 0, x := 0, y := 0, assigned_ap := none } : User)]
          [({ id := "AP_1", floor := 1, x := 0, y := 0 } : AP)]) :=
  ⟨by unfold FloorSafe; decide,
    (floor_partition_never_crossed
      [({ id := "u1", floor := 0, x := 0, y := 0, assigned_ap := none } : User)]
      [({ id := "AP_1", floor := 1, x := 0, y := 0 } : AP)]
      (fun _ => none) (by decide) (by decide) (by decide)
      (by unfold FloorSafe; decide)).1⟩

/-- C5: when the solve raises (modelled by a `runFlow` returning
`.error`), `apply_mcmf` recovers locally: it invokes
`GreedyRedistributor.redistribute` and builds the assignments dict from
every client's `nearest_ap`, so the dict covers every user; and the
`try/except` wrapper of `step` swallows any exception the tick body
raises, so `step` returns normally in every case. -/
theorem apply_mcmf_solver_failure_fallback
    (band : String) (prevAsg : List (String × Option String))
    (users : List User) (aps : List AP) (err : String)
    (hNu : (users.map User.id).Nodup)
    (hguard : ¬ ((update_ap_load aps (update_rssi band aps users)).any fun ap =>
        ap.max_users < ap.user_count) = true) :
    (apply_mcmf (fun _ _ => Except.error err) band prevAsg users aps).2 =
      (smoothMcmf
        (pyDictOf ((redistribute (update_rssi band aps users)
            (update_ap_load aps (update_rssi band aps users))).1.map
          fun u => (u.id, u.nearest_ap)))
        (redistribute (update_rssi band aps users)
          (update_ap_load aps (update_rssi band aps users))).1
        (redistribute (update_rssi band aps users)
          (update_ap_load aps (update_rssi band aps users))).2) ∧
    (∀ u ∈ users,
      dlookup (apply_mcmf (fun _ _ => Except.error err) band prevAsg users aps).1 u.id =
        some (update_rssi_user band aps u).nearest_ap) ∧
    (∀ body, stepCatch body = Except.ok ()) := by
  have hasg : (apply_mcmf (fun _ _ => Except.error err) band prevAsg users aps).1 =
      pyDictOf ((redistribute (update_rssi band aps users)
          (update_ap_load aps (update_rssi band aps users))).1.map
        fun u => (u.id, u.nearest_ap)) := by
    unfold apply_mcmf
    rw [if_neg hguard]
  refine ⟨?_, ?_, ?_⟩
  · unfold apply_mcmf
    rw [if_neg hguard]
  · intro u hu
    rw [hasg]
    have hshape : (redistribute (update_rssi band aps users)
        (update_ap_load aps (update_rssi band aps users))).1.map eraseAssign =
        (update_rssi band aps users).map eraseAssign := by
      rw [redistribute_eq]
      exact (redistribute_go_shape (update_rssi band aps users)
        (bookkeepAps (update_ap_load aps (update_rssi band aps users))
          (update_rssi band aps users))
        (get_overloaded_ids (bookkeepAps
          (update_ap_load aps (update_rssi band aps users))
          (update_rssi band aps users)))
        (update_rssi band aps users,
          bookkeepAps (update_ap_load aps (update_rssi band aps users))
            (update_rssi band aps users)) rfl rfl).1
    rw [map_idnearest_of_map_eraseAssign hshape]
    have hNu1 : ((update_rssi band aps users).map User.id).Nodup := by
      rw [update_rssi_map_id]; exact hNu
    have hkeys : (((update_rssi band aps users).map
        fun u => (u.id, u.nearest_ap)).map Prod.fst) =
        (update_rssi band aps users).map User.id := by
      rw [List.map_map]; rfl
    rw [pyDictOf_of_nodup_keys (by rw [hkeys]; exact hNu1)]
    have humem : update_rssi_user band aps u ∈ update_rssi band aps users :=
      List.mem_map_of_mem _ hu
    have hlook : dlookup ((update_rssi band aps users).map fun w =>
        (w.id, w.nearest_ap)) (update_rssi_user band aps u).id =
        some (update_rssi_user band aps u).nearest_ap :=
      dlookup_map_of_mem humem hNu1
    rw [update_rssi_user_id] at hlook
    exact hlook
  · intro body
    cases body <;> rfl

/-- Witness for `apply_mcmf_solver_failure_fallback` on a concrete
one-user snapshot (the user's floor has no AP, so the raw-count guard
stays off). -/
theorem apply_mcmf_solver_failure_fallback_witness :
    (([({ id := "u1", floor := 0, x := 0, y := 0, assigned_ap := none } : User)].map
        User.id).Nodup) ∧
    (∀ body, stepCatch body = Except.ok ()) := by
  have h2 : ¬ ((update_ap_load [({ id := "AP_1", floor := 1, x := 0, y := 0 } : AP)]
      (update_rssi "5" [({ id := "AP_1", floor := 1, x := 0, y := 0 } : AP)]
        [({ id := "u1", floor := 0, x := 0, y := 0, assigned_ap := none } : User)])).any
      fun ap => ap.max_users < ap.user_count) = true := by
    simp [update_ap_load, update_rssi, update_rssi_user, bumpUserCount]
  exact ⟨by decide,
    (apply_mcmf_solver_failure_fallback "5" []
      [({ id := "u1", floor := 0, x := 0, y := 0, assigned_ap := none } : User)]
      [({ id := "AP_1", floor := 1, x := 0, y := 0 } : AP)] "boom"
      (by decide) h2).2.2⟩

lemma bestApScan_spec (band : String) (ux uy : ℝ) (l : List AP) :
    (-95 : ℝ) ≤ (bestApScan band ux uy l).2 ∧
    (∀ ap ∈ l, ¬ bandCoverage band < dist2 ux uy ap.x ap.y →
      candRssi band ux uy ap ≤ (bestApScan band ux uy l).2) ∧
    (bestApScan band ux uy l = (none, -95) ∨
      ∃ ap ∈ l, ¬ bandCoverage band < dist2 ux uy ap.x ap.y ∧
        (bestApScan band ux uy l).1 = some ap.id ∧
        (bestApScan band ux uy l).2 = candRssi band ux uy ap ∧
        (-95 : ℝ) < (bestApScan band ux uy l).2) := by
  obtain ⟨a1, a2, a3, a4⟩ := bestApScan_go band ux uy l (none, -95) (by norm_num)
  exact ⟨a1, a3, a4⟩

/-- C9 (amended): `update_rssi` overwrites each user's
`assigned_ap`/`connected_ap`/`nearest_ap` with a value computed only from
the user's floor and position — the previous assignment is ignored.  If
the result is `some aid`, `aid` names a same-floor AP inside the current
band's coverage whose clamped estimated RSSI is strictly above the −95
starting value and maximal among all in-coverage same-floor APs (the
first such AP in list order on ties).  If the result is `None`, every
in-coverage same-floor AP has clamped RSSI at the −95 floor (in
particular, there may be none at all). -/
theorem update_rssi_overwrites_with_best_in_coverage
    (band : String) (aps : List AP) (u : User) :
    ((update_rssi_user band aps u).assigned_ap =
        (update_rssi_user band aps u).connected_ap ∧
      (update_rssi_user band aps u).assigned_ap =
        (update_rssi_user band aps u).nearest_ap) ∧
    (∀ v w, (update_rssi_user band aps
        { u with assigned_ap := v, connected_ap := w }).assigned_ap =
      (update_rssi_user band aps u).assigned_ap) ∧
    ((update_rssi_user band aps u).assigned_ap = none →
      ∀ ap ∈ aps, ap.floor = u.floor →
        ¬ bandCoverage band < dist2 u.x u.y ap.x ap.y →
        candRssi band u.x u.y ap ≤ -95) ∧
    (∀ aid, (update_rssi_user band aps u).assigned_ap = some aid →
      ∃ ap ∈ aps, ap.id = aid ∧ ap.floor = u.floor ∧
        ¬ bandCoverage band < dist2 u.x u.y ap.x ap.y ∧
        (-95 : ℝ) < candRssi band u.x u.y ap ∧
        ∀ ap' ∈ aps, ap'.floor = u.floor →
          ¬ bandCoverage band < dist2 u.x u.y ap'.x ap'.y →
          candRssi band u.x u.y ap' ≤ candRssi band u.x u.y ap) := by
  have hfloorMem : ∀ ap ∈ aps, ap.floor = u.floor →
      ap ∈ aps.filter fun ap => ap.floor == u.floor := by
    intro ap hap hfl
    exact List.mem_filter.mpr ⟨hap, beq_iff_eq.mpr hfl⟩
  obtain ⟨hs1, hs3, hs4⟩ :=
    bestApScan_spec band u.x u.y (aps.filter fun ap => ap.floor == u.floor)
  refine ⟨?_, ?_, ?_, ?_⟩
  · unfold update_rssi_user
    by_cases hemp : (aps.filter fun ap => ap.floor == u.floor).isEmpty
    · rw [if_pos hemp]
      exact ⟨rfl, rfl⟩
    · rw [if_neg hemp]
      rcases hsc : bestApScan band u.x u.y (aps.filter fun ap => ap.floor == u.floor)
        with ⟨b, r⟩
      cases b <;> exact ⟨rfl, rfl⟩
  · intro v w
    unfold update_rssi_user
    rfl
  · intro hnone ap hap hfl hcov
    unfold update_rssi_user at hnone
    by_cases hemp : (aps.filter fun ap => ap.floor == u.floor).isEmpty
    · exact absurd (List.isEmpty_iff.mp hemp ▸ hfloorMem ap hap hfl)
        (List.not_mem_nil ap)
    · rw [if_neg hemp] at hnone
      rcases hsc : bestApScan band u.x u.y (aps.filter fun ap => ap.floor == u.floor)
        with ⟨b, r⟩
      rw [hsc] at hnone hs3 hs4
      cases b with
      | some aid => simp at hnone
      | none =>
        rcases hs4 with hres | ⟨b', _, _, hb', _, _⟩
        · have hr : r = -95 := congrArg Prod.snd hres
          exact hr ▸ hs3 ap (hfloorMem ap hap hfl) hcov
        · cases hb'
  · intro aid hsome
    unfold update_rssi_user at hsome
    by_cases hemp : (aps.filter fun ap => ap.floor == u.floor).isEmpty
    · rw [if_pos hemp] at hsome
      cases hsome
    · rw [if_neg hemp] at hsome
      rcases hsc : bestApScan band u.x u.y (aps.filter fun ap => ap.floor == u.floor)
        with ⟨b, r⟩
      rw [hsc] at hsome hs3 hs4
      cases b with
      | none => cases hsome
      | some aid' =>
        have haid : aid' = aid := by simpa using hsome
        subst haid
        rcases hs4 with hres | ⟨ap, hap, hcov, hid, hr, hpos⟩
        · cases congrArg Prod.fst hres
        · have hapmem : ap ∈ aps := List.mem_of_mem_filter hap
          have hapfl : ap.floor = u.floor := beq_iff_eq.mp (List.mem_filter.mp hap).2
          refine ⟨ap, hapmem, by simpa using hid.symm, hapfl, hcov, ?_, ?_⟩
          · exact hr ▸ hpos
          · intro ap2 hap2 hfl2 hcov2
            exact hr ▸ hs3 ap2 (hfloorMem ap2 hap2 hfl2) hcov2

lemma dist2_600 : dist2 (0 : ℝ) 0 600 0 = 600 := by
  unfold dist2
  rw [show ((0 : ℝ) - 600) ^ 2 + ((0 : ℝ) - 0) ^ 2 = 600 ^ 2 by norm_num]
  exact Real.sqrt_sq (by norm_num)

lemma logb_600_large : (65 : ℝ) / 24 ≤ Real.logb 10 600 := by
  rw [Real.logb, le_div_iff₀ (Real.log_pos (by norm_num))]
  have h1 : (65 : ℝ) / 24 * Real.log 10 = 1 / 24 * Real.log ((10 : ℝ) ^ (65 : ℕ)) := by
    rw [Real.log_pow]
    push_cast
    ring
  have h2 : Real.log 600 = 1 / 24 * Real.log ((600 : ℝ) ^ (24 : ℕ)) := by
    rw [Real.log_pow]
    push_cast
    ring
  rw [h1, h2]
  apply mul_le_mul_of_nonneg_left _ (by norm_num)
  apply (Real.log_le_log_iff (by positivity) (by positivity)).mpr
  norm_num

/-- At 600 units from a band-6 AP (path-loss exponent 24) the estimated
RSSI `-30 - 24*log10(600) ≈ -96.7` clamps to exactly the −95 floor. -/
lemma candRssi_clamps_to_floor :
    candRssi "2.4" 0 0
      ({ id := "AP_1", floor := 0, x := 600, y := 0, band := some "6" } : AP) = -95 := by
  unfold candRssi clampRssi
  dsimp only
  rw [dist2_600]
  rw [show max (600 : ℝ) (1 / 1000) = 600 from max_eq_left (by norm_num)]
  rw [show bandPathloss ((some "6").getD "2.4") = 24 from rfl]
  have hraw : (-30 : ℝ) - 24 * Real.logb 10 600 ≤ -95 := by
    have := logb_600_large
    nlinarith
  rw [min_eq_right (le_trans hraw (by norm_num))]
  exact max_eq_left hraw

lemma update_rssi_user_scan_none (band : String) (aps : List AP) (u : User)
    (hne : (aps.filter fun ap => ap.floor == u.floor).isEmpty = false)
    (hscan : bestApScan band u.x u.y (aps.filter fun ap => ap.floor == u.floor) =
      (none, -95)) :
    (update_rssi_user band aps u).assigned_ap = none := by
  unfold update_rssi_user
  dsimp only
  rw [hne]
  rw [if_neg (by simp)]
  rw [hscan]

/-- C9 (counterexample): with the current band "2.4" (coverage 800), a
user at the origin and a single same-floor AP 600 units away running on
band "6" (path-loss 24), the AP is inside the band's coverage radius —
yet `update_rssi` leaves the user fully disconnected, because the
clamped candidate RSSI equals the −95 starting value and the strict
`rssi > best_rssi` comparison never fires.  The claim that `assigned_ap`
always ends up on the strongest in-coverage same-floor AP (None only if
no same-floor AP is in coverage) is therefore false at this input. -/
theorem update_rssi_ignores_minus95_clamped_ap :
    (update_rssi_user "2.4" [({ id := "AP_1", floor := 0, x := 600, y := 0, band := some "6" } : AP)] { id := "u1", floor := 0, x := 0, y := 0, assigned_ap := some "AP_1" }).assigned_ap = none ∧
    ({ id := "AP_1", floor := 0, x := 600, y := 0, band := some "6" } : AP).floor = ({ id := "u1", floor := 0, x := 0, y := 0, assigned_ap := some "AP_1" } : User).floor ∧
    ¬ bandCoverage "2.4" < dist2 (0 : ℝ) 0 600 0 := by
  have hcov : ¬ bandCoverage "2.4" < dist2 (0 : ℝ) 0 600 0 := by
    rw [dist2_600]
    norm_num [bandCoverage]
  have hscan : bestApScan "2.4" 0 0
      [({ id := "AP_1", floor := 0, x := 600, y := 0, band := some "6" } : AP)] =
      (none, -95) := by
    unfold bestApScan
    rw [List.foldl_cons, List.foldl_nil]
    unfold bestApStep
    dsimp only
    rw [if_neg hcov, candRssi_clamps_to_floor]
    rw [if_neg (lt_irrefl (-95 : ℝ))]
  refine ⟨?_, rfl, hcov⟩
  apply update_rssi_user_scan_none
  · rfl
  · rw [show (([({ id := "AP_1", floor := 0, x := 600, y := 0, band := some "6" } : AP)]).filter fun ap => ap.floor == ({ id := "u1", floor := 0, x := 0, y := 0, assigned_ap := some "AP_1" } : User).floor) = [({ id := "AP_1", floor := 0, x := 600, y := 0, band := some "6" } : AP)] from rfl]
    exact hscan
end WifiLB
